import Mathlib

/-!
Verification of the falseometer claim-decomposition and microlies-scoring
pipeline (src/article_analyzer.py and the summary logic of src/app.py).

Strings are modelled as lists of characters; Python floats are modelled as
exact rationals; a Python exception escaping a function is modelled by an
explicit error value.  The generative-model oracle is an injected dependency
supplying the raw text of each response (or a failure), exactly as the code
treats its LLM client.
-/

namespace Falseometer

/-- Characters Python's str.strip removes (ASCII whitespace). -/
def wsPy (c : Char) : Bool :=
  c == ' ' || c == '\t' || c == '\n' || c == '\r' || c == '\x0b' || c == '\x0c'

/-- Strip trailing whitespace. -/
def stripEnd (l : List Char) : List Char :=
  (l.reverse.dropWhile wsPy).reverse

/-- Model of Python str.strip(): drop leading and trailing whitespace. -/
def pyStrip (l : List Char) : List Char :=
  stripEnd (l.dropWhile wsPy)

/-- Boolean prefix test on character lists (Python str.startswith). -/
def chPrefix : List Char → List Char → Bool
  | [], _ => true
  | _ :: _, [] => false
  | p :: ps, c :: cs => p == c && chPrefix ps cs

/-- Boolean suffix test on character lists (Python str.endswith). -/
def chSuffix (p l : List Char) : Bool :=
  chPrefix p.reverse l.reverse

/-! ## Sentence segmentation

Model of ArticleAnalyzer.split_into_sentences: re.split on the pattern
(?<=[.!?])\s+(?=[A-Z]), then strip each fragment and keep those whose
stripped length exceeds 10.  The regex matches a maximal whitespace run
that is immediately preceded by one of . ! ? and immediately followed by
an ASCII uppercase letter. -/

/-- A sentence-terminal punctuation character. -/
def isSentEnd (c : Char) : Bool :=
  c == '.' || c == '!' || c == '?'

/-- An ASCII uppercase letter, the class [A-Z]. -/
def isUpperAZ (c : Char) : Bool :=
  'A' ≤ c && c ≤ 'Z'

/-- Does the list start with an uppercase letter? -/
def headUpper : List Char → Bool
  | [] => false
  | c :: _ => isUpperAZ c

/-- The worker behind the regex split.  acc holds the current fragment in
reverse.  A cut happens exactly when the previous character (head of acc) is
sentence-terminal, the current character starts a whitespace run, and the
first character after the run is uppercase; the whole run is consumed.
Structural on fuel so that the kernel can evaluate it; the callers pass
enough fuel for the recursion (one unit per character consumed). -/
def rawSplitAux : Nat → List Char → List Char → List (List Char)
  | 0, l, acc => [acc.reverse ++ l]
  | _ + 1, [], acc => [acc.reverse]
  | f + 1, c :: rest, acc =>
    if isSentEnd (acc.headD ' ') && wsPy c && headUpper (rest.dropWhile wsPy) then
      acc.reverse :: rawSplitAux f (rest.dropWhile wsPy) []
    else
      rawSplitAux f rest (c :: acc)

/-- Model of re.split((?<=[.!?])\s+(?=[A-Z]), text). -/
def rawSplit (l : List Char) : List (List Char) :=
  rawSplitAux (l.length + 1) l []

/-- Model of ArticleAnalyzer.split_into_sentences. -/
def split_into_sentences (text : List Char) : List (List Char) :=
  ((rawSplit text).map pyStrip).filter (fun s => 10 < s.length)

/-! ## JSON decoding

Model of Python json.loads as used by the analyzer.  Numbers are exact
rationals; the NaN / Infinity / -Infinity constants that Python's decoder
accepts get their own constructors.  Object members keep their textual
order; duplicate keys are resolved (last wins) only at lookup time, as the
Python dict construction does. -/

/-- A decoded JSON value (also standing in for the Python object obtained
from json.loads). -/
inductive JsonVal where
  | null
  | bool (b : Bool)
  | num (q : ℚ)
  | nan
  | inf
  | ninf
  | str (s : List Char)
  | arr (elems : List JsonVal)
  | obj (members : List (List Char × JsonVal))

/-- JSON-grammar whitespace, the class the Python decoder skips. -/
def jsonWs (c : Char) : Bool :=
  c == ' ' || c == '\t' || c == '\n' || c == '\r'

/-- Skip JSON whitespace. -/
def skipWs (l : List Char) : List Char :=
  l.dropWhile jsonWs

/-- ASCII decimal digit. -/
def isDigit (c : Char) : Bool :=
  '0' ≤ c && c ≤ '9'

/-- Numeric value of a digit character. -/
def digVal (c : Char) : Nat :=
  c.toNat - '0'.toNat

/-- Value of a digit string read in base 10. -/
def digitsToNat (ds : List Char) : Nat :=
  ds.foldl (fun acc c => acc * 10 + digVal c) 0

/-- Value of a hex digit character, if it is one. -/
def hexVal (c : Char) : Option Nat :=
  let n := c.toNat
  if 48 ≤ n ∧ n ≤ 57 then some (n - 48)
  else if 97 ≤ n ∧ n ≤ 102 then some (n - 87)
  else if 65 ≤ n ∧ n ≤ 70 then some (n - 55)
  else none

/-- The single-character JSON escapes. -/
def escChar : Char → Option Char
  | '"' => some '"'
  | '\\' => some '\\'
  | '/' => some '/'
  | 'b' => some (Char.ofNat 8)
  | 'f' => some (Char.ofNat 12)
  | 'n' => some '\n'
  | 'r' => some '\r'
  | 't' => some '\t'
  | _ => none

/-- Parse the body of a JSON string after the opening quote, returning the
decoded content and the remainder after the closing quote.  Unescaped
control characters are rejected (the decoder's strict mode). -/
def parseStringBody : List Char → Option (List Char × List Char)
  | [] => none
  | c :: rest =>
    if c = '"' then some ([], rest)
    else if c = '\\' then
      match rest with
      | 'u' :: a :: b :: c2 :: d :: r2 =>
        (match hexVal a, hexVal b, hexVal c2, hexVal d with
         | some va, some vb, some vc, some vd =>
           (parseStringBody r2).map
             (fun p => (Char.ofNat (((va * 16 + vb) * 16 + vc) * 16 + vd) :: p.1, p.2))
         | _, _, _, _ => none)
      | e :: r2 =>
        (match escChar e with
         | some ec => (parseStringBody r2).map (fun p => (ec :: p.1, p.2))
         | none => none)
      | [] => none
    else if c.toNat < 32 then none
    else (parseStringBody rest).map (fun p => (c :: p.1, p.2))

/-- Take a maximal run of digits. -/
def takeDigits (l : List Char) : List Char × List Char :=
  (l.takeWhile isDigit, l.dropWhile isDigit)

/-- Assemble a rational from sign, integer digits, fraction digits and a
decimal exponent. -/
def mkDecimal (neg : Bool) (ip : Nat) (frac : List Char) (ex : Int) : ℚ :=
  let base : ℚ := (ip : ℚ) + (digitsToNat frac : ℚ) / ((10 : ℚ) ^ frac.length)
  let scaled : ℚ := if 0 ≤ ex then base * (10 : ℚ) ^ ex.toNat else base / (10 : ℚ) ^ (-ex).toNat
  if neg then -scaled else scaled

/-- The optional fraction group (\.[0-9]+)? of the number regex: consumed
only when a dot is followed by at least one digit. -/
def fracPart : List Char → List Char × List Char
  | '.' :: r =>
    (match r with
     | d :: r2 =>
       if isDigit d then (d :: (takeDigits r2).1, (takeDigits r2).2)
       else ([], '.' :: r)
     | [] => ([], '.' :: r))
  | l => ([], l)

/-- The digits of an exponent group, or nothing when the group is
malformed (orig is returned unconsumed, as the regex would leave it). -/
def expDigits (sign : Int) (r2 orig : List Char) : Int × List Char :=
  match r2 with
  | d :: r3 =>
    if isDigit d then (sign * (digitsToNat (d :: (takeDigits r3).1) : Int), (takeDigits r3).2)
    else (0, orig)
  | [] => (0, orig)

/-- The optional exponent group ([eE][+-]?[0-9]+)? of the number regex. -/
def expPart : List Char → Int × List Char
  | e :: r =>
    if e == 'e' || e == 'E' then
      (match r with
       | '+' :: r2 => expDigits 1 r2 (e :: r)
       | '-' :: r2 => expDigits (-1) r2 (e :: r)
       | r2 => expDigits 1 r2 (e :: r))
    else (0, e :: r)
  | [] => (0, [])

/-- Consume the optional fraction and exponent groups after the integer
part of a JSON number, mirroring the regex's refusal to consume a
malformed group, and return the number's exact value. -/
def finishNumber (neg : Bool) (ip : Nat) (l : List Char) : ℚ × List Char :=
  (mkDecimal neg ip (fracPart l).1 (expPart (fracPart l).2).1, (expPart (fracPart l).2).2)

/-- Parse the longest prefix matched by the decoder's number regex
(-?(0|[1-9][0-9]*))(\.[0-9]+)?([eE][+-]?[0-9]+)? and return its exact
value, or none when the regex does not match at the head. -/
def parseNumber (l : List Char) : Option (ℚ × List Char) :=
  let (neg, l1) : Bool × List Char :=
    match l with
    | '-' :: r => (true, r)
    | _ => (false, l)
  match l1 with
  | [] => none
  | c :: r =>
    if c == '0' then some (finishNumber neg 0 r)
    else if isDigit c then
      let (ds, r2) := takeDigits r
      some (finishNumber neg (digitsToNat (c :: ds)) r2)
    else none

/-- Parser mode: a top-level value, the member list of an object after its
first key has been reached, or the element list of an array. -/
inductive PMode where
  | pval
  | pmembers (acc : List (List Char × JsonVal))
  | pitems (acc : List JsonVal)

/-- The recursive JSON value parser, structural on fuel (one unit per
recursive step; callers supply more fuel than the input length so
exhaustion is unreachable). -/
def parseJ : Nat → PMode → List Char → Option (JsonVal × List Char)
  | 0, _, _ => none
  | f + 1, .pval, l =>
    match l with
    | '"' :: r =>
      (parseStringBody r).map (fun p => (.str p.1, p.2))
    | '{' :: r =>
      (match skipWs r with
       | '}' :: r2 => some (.obj [], r2)
       | r2 => parseJ f (.pmembers []) r2)
    | '[' :: r =>
      (match skipWs r with
       | ']' :: r2 => some (.arr [], r2)
       | r2 => parseJ f (.pitems []) r2)
    | 'n' :: 'u' :: 'l' :: 'l' :: r => some (.null, r)
    | 't' :: 'r' :: 'u' :: 'e' :: r => some (.bool true, r)
    | 'f' :: 'a' :: 'l' :: 's' :: 'e' :: r => some (.bool false, r)
    | 'N' :: 'a' :: 'N' :: r => some (.nan, r)
    | 'I' :: 'n' :: 'f' :: 'i' :: 'n' :: 'i' :: 't' :: 'y' :: r => some (.inf, r)
    | '-' :: 'I' :: 'n' :: 'f' :: 'i' :: 'n' :: 'i' :: 't' :: 'y' :: r => some (.ninf, r)
    | _ => (parseNumber l).map (fun p => (.num p.1, p.2))
  | f + 1, .pmembers acc, l =>
    match l with
    | '"' :: r =>
      (match parseStringBody r with
       | none => none
       | some (k, r1) =>
         match skipWs r1 with
         | ':' :: r2 =>
           (match parseJ f .pval (skipWs r2) with
            | none => none
            | some (v, r3) =>
              match skipWs r3 with
              | ',' :: r4 => parseJ f (.pmembers (acc ++ [(k, v)])) (skipWs r4)
              | '}' :: r4 => some (.obj (acc ++ [(k, v)]), r4)
              | _ => none)
         | _ => none)
    | _ => none
  | f + 1, .pitems acc, l =>
    match parseJ f .pval l with
    | none => none
    | some (v, r) =>
      match skipWs r with
      | ',' :: r2 => parseJ f (.pitems (acc ++ [v])) (skipWs r2)
      | ']' :: r2 => some (.arr (acc ++ [v]), r2)
      | _ => none

/-- Model of json.loads: skip leading whitespace, parse one value, require
only whitespace to remain (otherwise the decoder raises Extra data). -/
def jsonParse (l : List Char) : Option JsonVal :=
  match parseJ (4 * l.length + 8) .pval (skipWs l) with
  | none => none
  | some (v, rest) => if skipWs rest = [] then some v else none

/-! ## Probability-response parsing

Model of ArticleAnalyzer._parse_probability_response.  The Python function
catches only json.JSONDecodeError (a subclass of ValueError) and ValueError,
so a TypeError from float(...) on a null/list/dict probability field, or an
AttributeError from .get on a decoded non-dict, escapes it; such an escape
is modelled by an explicit error result. -/

/-- A Python exception escaping or crossing the parser.  Only ValueError
(and its subclass json.JSONDecodeError) is caught by the parser's handler;
the other two propagate to the caller. -/
inductive PyErr where
  | valueError
  | typeError (objType : List Char)
  | attributeError (objType : List Char)
deriving DecidableEq

/-- The name of the Python type of a decoded value, for error payloads. -/
def pyTypeName : JsonVal → List Char
  | .null => ( "NoneType").data
  | .bool _ => ( "bool").data
  | .num _ => ( "float").data
  | .nan => ( "float").data
  | .inf => ( "float").data
  | .ninf => ( "float").data
  | .str _ => ( "str").data
  | .arr _ => ( "list").data
  | .obj _ => ( "dict").data

/-- Scan a brace-free interior up to the first closing brace: returns the
interior and the remainder after the brace, or none when an opening brace
or the end of input intervenes (the regex classes [^{}] forbid both). -/
def interiorTo : List Char → Option (List Char × List Char)
  | [] => none
  | c :: r =>
    if c == '}' then some ([], r)
    else if c == '{' then none
    else (interiorTo r).map (fun p => (c :: p.1, p.2))

/-- Drop everything up to and including the first occurrence of pat, or
none when pat does not occur. -/
def dropToAfter (pat : List Char) : List Char → Option (List Char)
  | [] => if pat.isEmpty then some [] else none
  | c :: r =>
    if chPrefix pat (c :: r) then some ((c :: r).drop pat.length)
    else dropToAfter pat r

/-- Substring containment test. -/
def containsSub (pat l : List Char) : Bool :=
  (dropToAfter pat l).isSome

/-- Does a brace-free interior contain "explanation" and, after it,
"probability" (both quoted), as the fragment regex requires? -/
def keysOk (interior : List Char) : Bool :=
  match dropToAfter ( "\"explanation\"").data interior with
  | some rest => containsSub ( "\"probability\"").data rest
  | none => false

/-- Model of re.search(r'\x7b[^\x7b\x7d]*"explanation"[^\x7b\x7d]*"probability"[^\x7b\x7d]*\x7d', text):
the leftmost brace-delimited, brace-free fragment whose interior mentions
the two keys in order. -/
def findFragment : List Char → Option (List Char)
  | [] => none
  | c :: r =>
    if c == '{' then
      match interiorTo r with
      | some (interior, _) =>
        if keysOk interior then some ('{' :: interior ++ [ '}' ])
        else findFragment r
      | none => findFragment r
    else findFragment r

/-- A Python float value as far as this pipeline can observe one: an exact
rational or one of the special values. -/
inductive PyFloat where
  | fin (q : ℚ)
  | fnan
  | finf
  | fninf
deriving DecidableEq

/-- Model of Python float(s) for a string argument (ValueError when the
text is not a float literal).  Underscored literals are not modelled. -/
def pyFloatOfString (s : List Char) : Except PyErr PyFloat :=
  let t := pyStrip s
  let (neg, t1) : Bool × List Char :=
    match t with
    | '-' :: r => (true, r)
    | '+' :: r => (false, r)
    | _ => (false, t)
  let low := t1.map Char.toLower
  if low = ( "inf").data || low = ( "infinity").data then
    .ok (if neg then .fninf else .finf)
  else if low = ( "nan").data then .ok .fnan
  else
    let (ip, t2) := takeDigits t1
    let (frac, t3) : List Char × List Char :=
      match t2 with
      | '.' :: r => takeDigits r
      | _ => ([], t2)
    if ip.isEmpty && frac.isEmpty then .error .valueError
    else
      let (ex, t4) : Option Int × List Char :=
        match t3 with
        | e :: r =>
          if e == 'e' || e == 'E' then
            match r with
            | '+' :: r2 =>
              (match takeDigits r2 with
               | ([], _) => (none, t3)
               | (ds, r3) => (some (digitsToNat ds : Int), r3))
            | '-' :: r2 =>
              (match takeDigits r2 with
               | ([], _) => (none, t3)
               | (ds, r3) => (some (-(digitsToNat ds : Int)), r3))
            | _ =>
              (match takeDigits r with
               | ([], _) => (none, t3)
               | (ds, r3) => (some (digitsToNat ds : Int), r3))
          else (none, t3)
        | [] => (some 0, [])
      match ex, t4 with
      | some e, [] => .ok (.fin (mkDecimal neg (digitsToNat ip) frac e))
      | _, _ => .error .valueError

/-- Model of Python float(x) on a decoded JSON value: numbers and booleans
convert, strings are parsed, anything else raises TypeError. -/
def pyFloat : JsonVal → Except PyErr PyFloat
  | .num q => .ok (.fin q)
  | .nan => .ok .fnan
  | .inf => .ok .finf
  | .ninf => .ok .fninf
  | .bool b => .ok (.fin (if b then 1 else 0))
  | .str s => pyFloatOfString s
  | v => .error (.typeError (pyTypeName v))

/-- Model of max(0.0, min(1.0, p)) under Python's comparison rules, where
min(1.0, nan) is 1.0 because nan < 1.0 is false. -/
def clampProb : PyFloat → ℚ
  | .fin q => max 0 (min 1 q)
  | .fnan => 1
  | .finf => 1
  | .fninf => 0

/-- Last-wins key lookup on decoded object members (Python dict.get with a
default, observing that repeated keys overwrite earlier ones). -/
def objGetD (ms : List (List Char × JsonVal)) (k : List Char) (d : JsonVal) : JsonVal :=
  match ms.reverse.find? (fun p => p.1 == k) with
  | some p => p.2
  | none => d

/-- Read the clamped probability and the explanation out of a decoded
value: result.get("probability", 0.5) / result.get("explanation", ...) with
float conversion and the final clamp.  AttributeError when the value is not
a dict; TypeError from float(...) on an unconvertible field. -/
def extractProbExpl (v : JsonVal) : Except PyErr (ℚ × JsonVal) :=
  match v with
  | .obj ms =>
    let expl := objGetD ms ( "explanation").data (.str ( "No explanation provided").data)
    match objGetD ms ( "probability").data (.num (1 / 2)) |> pyFloat with
    | .ok f => .ok (clampProb f, expl)
    | .error e => .error e
  | _ => .error (.attributeError (pyTypeName v))

/-- One token of the fallback regex 0?\.\d+|[01]\.?\d*, tried at the head
of the list: the first alternative (optional 0, a dot, then digits) wins
when it matches, otherwise a 0/1 with an optional dot and trailing digits. -/
def probTokenAt (l : List Char) : Option (List Char) :=
  match l with
  | '0' :: '.' :: d :: r =>
    if isDigit d then
      let (ds, _) := takeDigits r
      some ('0' :: '.' :: d :: ds)
    else some [ '0', '.' ]
  | '.' :: d :: r =>
    if isDigit d then
      let (ds, _) := takeDigits r
      some ('.' :: d :: ds)
    else none
  | c :: r =>
    if c == '0' || c == '1' then
      match r with
      | '.' :: r2 =>
        let (ds, _) := takeDigits r2
        some (c :: '.' :: ds)
      | _ =>
        let (ds, _) := takeDigits r
        some (c :: ds)
    else none
  | [] => none

/-- The first match of the fallback regex anywhere in the text, scanning
left to right (the head of re.findall's result). -/
def findFirstProbToken : List Char → Option (List Char)
  | [] => none
  | c :: r =>
    match probTokenAt (c :: r) with
    | some t => some t
    | none => findFirstProbToken r

/-- Exact value of a matched probability token (digits around an optional
dot; every match of the fallback regex is a valid float literal). -/
def probTokenVal (t : List Char) : ℚ :=
  let (ip, t2) := takeDigits t
  let frac : List Char :=
    match t2 with
    | '.' :: r => r
    | _ => []
  mkDecimal false (digitsToNat ip) frac 0

/-- The numeric-token fallback: the first probability-like token of the raw
response text, clamped, or the neutral 0.5 on total parse failure. -/
def fallbackParse (response : List Char) : ℚ × JsonVal :=
  match findFirstProbToken response with
  | some t => (max 0 (min 1 (probTokenVal t)), .str (( "Fallback parse: ").data ++ response))
  | none => (1 / 2, .str (( "Parse failed: ").data ++ response))

/-- Strip one optional level of code fencing, preferring the json-tagged
form: after dropping a leading three-backtick marker (with or without the
json tag), a trailing three-backtick marker is dropped when present. -/
def stripFences (l : List Char) : List Char :=
  if chPrefix ( "```json").data l then
    let l2 := l.drop 7
    if chSuffix ( "```").data l2 then l2.take (l2.length - 3) else l2
  else if chPrefix ( "```").data l then
    let l2 := l.drop 3
    if chSuffix ( "```").data l2 then l2.take (l2.length - 3) else l2
  else l

/-- The cleaned text the structural decode paths operate on. -/
def cleanedText (response : List Char) : List Char :=
  pyStrip (stripFences (pyStrip response))

/-- The structural decode: json.loads on the regex-located fragment when
one exists, otherwise on the whole cleaned text. -/
def structuralDecode (cleaned : List Char) : Option JsonVal :=
  match findFragment cleaned with
  | some frag => jsonParse frag
  | none => jsonParse cleaned

/-- Model of ArticleAnalyzer._parse_probability_response.  An .error result
models an exception (TypeError / AttributeError) escaping the function; the
caught ValueError family instead reaches the numeric-token fallback. -/
def parse_probability_response (response : List Char) : Except PyErr (ℚ × JsonVal) :=
  match structuralDecode (cleanedText response) with
  | some v =>
    match extractProbExpl v with
    | .ok pe => .ok pe
    | .error .valueError => .ok (fallbackParse response)
    | .error e => .error e
  | none => .ok (fallbackParse response)

/-! ## The analysis pipeline

ArticleAnalyzer.extract_claims / calculate_interpretation_probability /
calculate_truth_probability / analyze_article.  The LLM is an injected
oracle returning the raw text of each completion, or a failure (network or
client error); fetching the article is an external collaborator, so
analyze_article receives the fetched text.  Oracle invocations are recorded
in a call log so that statements about which calls are made are theorems
about the model. -/

/-- The injected generative-model dependency: one raw-text completion per
judgment operation, each of which may fail. -/
structure Oracle where
  extractResponse : List Char → Except (List Char) (List Char)
  interpResponse : List Char → JsonVal → List Char → Except (List Char) (List Char)
  truthResponse : JsonVal → List Char → Except (List Char) (List Char)

/-- One oracle invocation, as recorded in the call log. -/
inductive OracleCall where
  | extractCall (sentence : List Char)
  | interpCall (sentence : List Char) (claim : JsonVal)
  | truthCall (claim : JsonVal)

/-- A fully evaluated claim record. -/
structure Claim where
  text : JsonVal
  probability_interpreted : ℚ
  probability_true : ℚ
  interpretation_explanation : JsonVal
  truth_explanation : JsonVal
  microlies : ℚ

/-- The per-sentence analysis record. -/
structure SentenceAnalysis where
  sentence : List Char
  claims : List Claim
  sentence_microlies : ℚ

/-- The microlies formula applied to one claim's probabilities:
(probability_interpreted * (1 - probability_true))^3 * 1000000. -/
def microliesFor (prob_interpreted prob_true : ℚ) : ℚ :=
  (prob_interpreted * (1 - prob_true)) ^ 3 * 1000000

/-- Model of calculate_interpretation_probability: invoke the oracle, strip
the response, parse it; any exception (from the call or escaping the
parser) is absorbed into probability 0.5 with the error text as the
explanation. -/
def calculate_interpretation_probability (o : Oracle) (sentence : List Char)
    (claim : JsonVal) (article_text : List Char) : ℚ × JsonVal :=
  match o.interpResponse sentence claim article_text with
  | .error e => (1 / 2, .str (( "Error: ").data ++ e))
  | .ok content =>
    match parse_probability_response (pyStrip content) with
    | .ok pe => pe
    | .error err => (1 / 2, .str (( "Error: ").data ++ pyErrText err))
where
  /-- Render of str(e) for the escaped exception, used as explanation. -/
  pyErrText : PyErr → List Char
  | .valueError => ( "ValueError").data
  | .typeError t => ( "float argument must be a string or a real number, not ").data ++ t
  | .attributeError t => t ++ ( " object has no attribute get").data

/-- Model of calculate_truth_probability, same failure policy. -/
def calculate_truth_probability (o : Oracle) (claim : JsonVal)
    (article_text : List Char) : ℚ × JsonVal :=
  match o.truthResponse claim article_text with
  | .error e => (1 / 2, .str (( "Error: ").data ++ e))
  | .ok content =>
    match parse_probability_response (pyStrip content) with
    | .ok pe => pe
    | .error err => (1 / 2, .str (( "Error: ").data ++ calculate_interpretation_probability.pyErrText err))

/-- The fence stripping of extract_claims (claims_text[7:-3] and
claims_text[3:-3] are unconditional there, unlike the probability parser). -/
def extractCleaned (content : List Char) : List Char :=
  let t := pyStrip content
  if chPrefix ( "```json").data t then (t.drop 7).take (t.length - 10)
  else if chPrefix ( "```").data t then (t.drop 3).take (t.length - 6)
  else t

/-- Model of extract_claims: the decoded response (any JSON value, the
code does not check it is a list of strings), with every exception - a
failed call or undecodable output - absorbed into the empty list. -/
def extract_claims (o : Oracle) (sentence : List Char) : JsonVal :=
  match o.extractResponse sentence with
  | .error _ => .arr []
  | .ok content =>
    match jsonParse (extractCleaned content) with
    | some v => v
    | none => .arr []

/-- Python slicing xs[:m] on a list, with negative bounds counting from
the end. -/
def sliceStop {α : Type} (xs : List α) (m : Int) : List α :=
  if 0 ≤ m then xs.take m.toNat else xs.take (xs.length - (-m).toNat)

/-- claim_texts[:max_claims] on the decoded value: lists and strings
slice, anything else raises TypeError. -/
def truncateVal (v : JsonVal) (m : Int) : Except PyErr JsonVal :=
  match v with
  | .arr xs => .ok (.arr (sliceStop xs m))
  | .str s => .ok (.str (sliceStop s m))
  | _ => .error (.typeError (pyTypeName v))

/-- The truthiness-guarded truncation: if max_claims: claim_texts =
claim_texts[:max_claims] (None and 0 are falsy, so both disable it). -/
def truncateClaims (max_claims : Option Int) (v : JsonVal) : Except PyErr JsonVal :=
  match max_claims with
  | none => .ok v
  | some m => if m = 0 then .ok v else truncateVal v m

/-- for claim_text in claim_texts: iterating a decoded list yields its
elements, a string its characters, a dict its keys; anything else raises
TypeError. -/
def pyIterVal (v : JsonVal) : Except PyErr (List JsonVal) :=
  match v with
  | .arr xs => .ok xs
  | .str s => .ok (s.map (fun c => .str [c]))
  | .obj ms => .ok (ms.map (fun p => .str p.1))
  | _ => .error (.typeError (pyTypeName v))

/-- Evaluate one claim: both probability calls, then the microlies
formula.  Total: nothing in the per-claim loop body can abort. -/
def evalClaim (o : Oracle) (article_text sentence : List Char) (c : JsonVal) : Claim :=
  let pi := calculate_interpretation_probability o sentence c article_text
  let pt := calculate_truth_probability o c article_text
  { text := c
    probability_interpreted := pi.1
    probability_true := pt.1
    interpretation_explanation := pi.2
    truth_explanation := pt.2
    microlies := microliesFor pi.1 pt.1 }

/-- The per-claim loop: one claim record per retained claim text, and one
interpretation call followed by one truth call per record. -/
def evalClaimList (o : Oracle) (article_text sentence : List Char) :
    List JsonVal → List Claim × List OracleCall
  | [] => ([], [])
  | c :: cs =>
    let cl := evalClaim o article_text sentence c
    let rest := evalClaimList o article_text sentence cs
    (cl :: rest.1, .interpCall sentence c :: .truthCall c :: rest.2)

/-- One iteration of the sentence loop: extraction, truthiness-guarded
truncation, iteration, claim evaluation, and the sentence-level sum.  An
.error result models a TypeError escaping analyze_article when the decoded
extraction output cannot be sliced or iterated. -/
def evalSentence (o : Oracle) (article_text : List Char) (max_claims : Option Int)
    (sentence : List Char) : Except PyErr SentenceAnalysis × List OracleCall :=
  let cv := extract_claims o sentence
  match truncateClaims max_claims cv with
  | .error e => (.error e, [.extractCall sentence])
  | .ok cv2 =>
    match pyIterVal cv2 with
    | .error e => (.error e, [.extractCall sentence])
    | .ok cs =>
      let r := evalClaimList o article_text sentence cs
      (.ok { sentence := sentence
             claims := r.1
             sentence_microlies := (r.1.map Claim.microlies).sum },
       .extractCall sentence :: r.2)

/-- The skip/limit logic of analyze_article: skip_sentences is applied
only when positive; max_sentences only when truthy (None and 0 disable
it), with Python slice semantics for negative bounds. -/
def applyLimits (sentences : List (List Char)) (max_sentences : Option Int)
    (skip_sentences : Int) : List (List Char) :=
  let s1 := if 0 < skip_sentences then sentences.drop skip_sentences.toNat else sentences
  match max_sentences with
  | none => s1
  | some m => if m = 0 then s1 else sliceStop s1 m

/-- The sentence loop of analyze_article over an already-limited sentence
list, accumulating results and the oracle call log; the first escaping
exception aborts the loop. -/
def analyzeSentenceList (o : Oracle) (article_text : List Char) (max_claims : Option Int) :
    List (List Char) → Except PyErr (List SentenceAnalysis) × List OracleCall
  | [] => (.ok [], [])
  | s :: rest =>
    match evalSentence o article_text max_claims s with
    | (.error e, log) => (.error e, log)
    | (.ok sa, log) =>
      match analyzeSentenceList o article_text max_claims rest with
      | (.error e, log2) => (.error e, log ++ log2)
      | (.ok sas, log2) => (.ok (sa :: sas), log ++ log2)

/-- Model of ArticleAnalyzer.analyze_article on the fetched article text:
segment, skip, limit, then evaluate each retained sentence in order. -/
def analyze_article (o : Oracle) (article_text : List Char)
    (max_sentences max_claims : Option Int) (skip_sentences : Int) :
    Except PyErr (List SentenceAnalysis) × List OracleCall :=
  analyzeSentenceList o article_text max_claims
    (applyLimits (split_into_sentences article_text) max_sentences skip_sentences)

/-- The numeric summary save_results computes before writing the file. -/
structure OutputData where
  article_microlies : ℚ
  total_sentences : Nat
  total_claims : Nat
deriving DecidableEq

/-- Model of the aggregation in save_results (the file write itself is an
external effect). -/
def save_results (results : List SentenceAnalysis) : OutputData :=
  { article_microlies := (results.map SentenceAnalysis.sentence_microlies).sum
    total_sentences := results.length
    total_claims := (results.map (fun a => a.claims.length)).sum }

/-! ## The web layer's summary statistics and limit clamps (src/app.py)
and the CLI entry point's parameter passing (article_analyzer.main). -/

/-- The summary block both Flask routes build from the results. -/
structure Summary where
  total_sentences : Nat
  total_claims : Nat
  article_microlies : ℚ
  avg_claims_per_sentence : ℚ
  avg_microlies_per_sentence : ℚ
  avg_microlies_per_claim : ℚ
deriving DecidableEq

/-- Model of the summary computation shared by the POST and GET routes:
each rate guarded by its denominator's positivity, else 0. -/
def mkSummary (results : List SentenceAnalysis) : Summary :=
  let ts := results.length
  let tc := (results.map (fun a => a.claims.length)).sum
  let am := (results.map SentenceAnalysis.sentence_microlies).sum
  { total_sentences := ts
    total_claims := tc
    article_microlies := am
    avg_claims_per_sentence := if 0 < ts then (tc : ℚ) / (ts : ℚ) else 0
    avg_microlies_per_sentence := if 0 < ts then am / (ts : ℚ) else 0
    avg_microlies_per_claim := if 0 < tc then am / (tc : ℚ) else 0 }

/-- POST /analyze: defaulted form field, then the cap at 50.  none models
an empty (falsy) form field. -/
def postMaxSentences (raw : Option Int) : Int :=
  let v := match raw with | none => 5 | some n => n
  if 50 < v then 50 else v

/-- POST /analyze: max_claims defaulted to 10 and capped at 10. -/
def postMaxClaims (raw : Option Int) : Int :=
  let v := match raw with | none => 10 | some n => n
  if 10 < v then 10 else v

/-- GET /analyze: same conversion with defaults 5. -/
def getMaxSentences (raw : Option Int) : Int :=
  let v := match raw with | none => 5 | some n => n
  if 50 < v then 50 else v

/-- GET /analyze: max_claims defaulted to 10 and capped at 10. -/
def getMaxClaims (raw : Option Int) : Int :=
  let v := match raw with | none => 10 | some n => n
  if 10 < v then 10 else v

/-- /api/analyze: the JSON body's value (none models null) passes through
a truthiness-guarded cap: if max_sentences and max_sentences > 50. -/
def apiMaxSentences (x : Option Int) : Option Int :=
  match x with
  | none => none
  | some v => some (if v ≠ 0 ∧ 50 < v then 50 else v)

/-- /api/analyze: the max_claims counterpart with cap 10. -/
def apiMaxClaims (x : Option Int) : Option Int :=
  match x with
  | none => none
  | some v => some (if v ≠ 0 ∧ 10 < v then 10 else v)

/-- The CLI main(): args.sentences is handed to analyze_article as is. -/
def mainMaxSentences (x : Option Int) : Option Int := x

/-- The CLI main(): args.claims is handed to analyze_article as is. -/
def mainMaxClaims (x : Option Int) : Option Int := x

/-! ## Structural lemmas about the pipeline -/

/-- The head of a nonempty list with a default is a member. -/
theorem headD_mem {α : Type} {l : List α} (d : α) (h : l ≠ []) : l.headD d ∈ l := by
  cases l with
  | nil => exact absurd rfl h
  | cons a t => exact List.mem_cons_self a t

@[simp]
theorem evalClaim_text (o : Oracle) (a s : List Char) (c : JsonVal) :
    (evalClaim o a s c).text = c := rfl

@[simp]
theorem evalClaim_microlies_eq (o : Oracle) (a s : List Char) (c : JsonVal) :
    (evalClaim o a s c).microlies =
      microliesFor (evalClaim o a s c).probability_interpreted
        (evalClaim o a s c).probability_true := rfl

/-- Claim records are produced one per retained claim text, in order. -/
theorem evalClaimList_map_text (o : Oracle) (a s : List Char) :
    ∀ cs : List JsonVal, ((evalClaimList o a s cs).1.map Claim.text) = cs := by
  intro cs
  induction cs with
  | nil => rfl
  | cons c cs ih => simp [evalClaimList, ih]

/-- The per-claim loop produces as many records as claim texts. -/
theorem evalClaimList_length (o : Oracle) (a s : List Char) (cs : List JsonVal) :
    (evalClaimList o a s cs).1.length = cs.length := by
  have := congrArg List.length (evalClaimList_map_text o a s cs)
  simpa using this

/-- The call log of the per-claim loop: exactly one interpretation call and
one truth call per retained claim, in order. -/
theorem evalClaimList_log (o : Oracle) (a s : List Char) :
    ∀ cs : List JsonVal,
      (evalClaimList o a s cs).2 =
        cs.flatMap (fun c => [OracleCall.interpCall s c, OracleCall.truthCall c]) := by
  intro cs
  induction cs with
  | nil => rfl
  | cons c cs ih => simp [evalClaimList, ih]

/-- Every record in the per-claim loop's output satisfies the microlies
formula. -/
theorem evalClaimList_microlies (o : Oracle) (a s : List Char) :
    ∀ cs : List JsonVal, ∀ cl ∈ (evalClaimList o a s cs).1,
      cl.microlies = microliesFor cl.probability_interpreted cl.probability_true := by
  intro cs
  induction cs with
  | nil => intro cl h; simp [evalClaimList] at h
  | cons c cs ih =>
    intro cl h
    rcases List.mem_cons.mp h with h1 | h2
    · subst h1; rfl
    · exact ih cl h2

/-- Anatomy of a successful sentence evaluation. -/
theorem evalSentence_ok (o : Oracle) (a : List Char) (mc : Option Int) (s : List Char)
    {sa : SentenceAnalysis} {log : List OracleCall}
    (h : evalSentence o a mc s = (.ok sa, log)) :
    sa.sentence = s ∧
    sa.sentence_microlies = (sa.claims.map Claim.microlies).sum ∧
    ∃ cs : List JsonVal, sa.claims = (evalClaimList o a s cs).1 := by
  unfold evalSentence at h
  rcases h1 : truncateClaims mc (extract_claims o s) with e | cv2 <;> simp only [h1] at h
  · simp at h
  · rcases h2 : pyIterVal cv2 with e | cs <;> simp only [h2] at h
    · simp at h
    · simp only [Prod.mk.injEq, Except.ok.injEq] at h
      obtain ⟨hsa, -⟩ := h
      subst hsa
      exact ⟨rfl, rfl, cs, rfl⟩

/-- A successful run analyzes exactly the supplied sentences, in order, and
every produced record is a successful evaluation of its own sentence. -/
theorem analyzeSentenceList_ok (o : Oracle) (a : List Char) (mc : Option Int) :
    ∀ (lst : List (List Char)) (res : List SentenceAnalysis) (log : List OracleCall),
      analyzeSentenceList o a mc lst = (.ok res, log) →
      res.map SentenceAnalysis.sentence = lst ∧
      ∀ sa ∈ res, ∃ log2, evalSentence o a mc sa.sentence = (.ok sa, log2) := by
  intro lst
  induction lst with
  | nil =>
    intro res log h
    simp only [analyzeSentenceList, Prod.mk.injEq, Except.ok.injEq] at h
    obtain ⟨hr, -⟩ := h
    subst hr
    simp
  | cons s rest ih =>
    intro res log h
    unfold analyzeSentenceList at h
    rcases h1 : evalSentence o a mc s with ⟨r1, log1⟩
    simp only [h1] at h
    rcases r1 with e | sa1
    · simp at h
    · rcases h2 : analyzeSentenceList o a mc rest with ⟨r2, log2⟩
      simp only [h2] at h
      rcases r2 with e | sas
      · simp at h
      · simp only [Prod.mk.injEq, Except.ok.injEq] at h
        obtain ⟨hr, -⟩ := h
        subst hr
        obtain ⟨hmap, hmem⟩ := ih sas log2 h2
        obtain ⟨hs1, -, -⟩ := evalSentence_ok o a mc s h1
        refine ⟨by simp [hmap, hs1], ?_⟩
        intro sa hsa
        rcases List.mem_cons.mp hsa with h3 | h4
        · subst h3; exact ⟨log1, by rw [hs1]; exact h1⟩
        · exact hmem sa h4

/-- Anatomy of a successful analyze_article run. -/
theorem analyze_article_ok (o : Oracle) (a : List Char) (ms mc : Option Int) (sk : Int)
    {res : List SentenceAnalysis} {log : List OracleCall}
    (h : analyze_article o a ms mc sk = (.ok res, log)) :
    res.map SentenceAnalysis.sentence = applyLimits (split_into_sentences a) ms sk ∧
    ∀ sa ∈ res, ∃ log2, evalSentence o a mc sa.sentence = (.ok sa, log2) :=
  analyzeSentenceList_ok o a mc _ res log h

/-! ## Concrete stub oracles used to instantiate the theorems -/

/-- A well-behaved oracle: one extracted claim, well-formed probability
responses 0.8 and 0.3. -/
def stubOracle : Oracle where
  extractResponse := fun _ => .ok ( "[\"the claim\"]").data
  interpResponse := fun _ _ _ =>
    .ok ( "\x7b\"explanation\": \"stated directly\", \"probability\": 0.8\x7d").data
  truthResponse := fun _ _ =>
    .ok ( "\x7b\"explanation\": \"weak evidence\", \"probability\": 0.3\x7d").data

/-- A concrete two-sentence article. -/
def stubArticle : List Char :=
  ( "The first test sentence is long. The second test sentence is long.").data

/-- The run of the pipeline on the stub oracle and article. -/
def stubRun : Except PyErr (List SentenceAnalysis) × List OracleCall :=
  analyze_article stubOracle stubArticle none none 0

/-- The result list of the stub run. -/
def stubRes : List SentenceAnalysis :=
  match stubRun.1 with
  | .ok r => r
  | .error _ => []

/-- The first sentence record of the stub run. -/
def stubSA : SentenceAnalysis :=
  stubRes.headD { sentence := [], claims := [], sentence_microlies := 0 }

/-- The first claim record of the stub run. -/
def stubClaim : Claim :=
  stubSA.claims.headD
    { text := .null, probability_interpreted := 0, probability_true := 0
      interpretation_explanation := .null, truth_explanation := .null, microlies := 0 }

theorem stubRun_eq : stubRun = (.ok stubRes, stubRun.2) := rfl

theorem stubRes_length : stubRes.length = 2 := by rfl

theorem stubRes_ne_nil : stubRes ≠ [] := by
  intro h
  have := congrArg List.length h
  rw [stubRes_length] at this
  simp at this

theorem stubSA_claims_length : stubSA.claims.length = 1 := by rfl

theorem stubSA_claims_ne_nil : stubSA.claims ≠ [] := by
  intro h
  have := congrArg List.length h
  rw [stubSA_claims_length] at this
  simp at this

/-! ## Claim C1 -/

/-- Claim C1: every claim record produced by analyze_article has microlies
equal to (probability_interpreted * (1 - probability_true))^3 * 1000000
exactly; hence the formula yields 1000000 at (1, 0), yields 0 when
probability_interpreted is 0 or probability_true is 1, and for a fixed
value of the other argument is monotonically increasing in
probability_interpreted and monotonically decreasing in probability_true. -/
theorem claim_C1_microlies_formula :
    (∀ (o : Oracle) (a : List Char) (ms mc : Option Int) (sk : Int)
       (res : List SentenceAnalysis) (log : List OracleCall),
       analyze_article o a ms mc sk = (.ok res, log) →
       ∀ sa ∈ res, ∀ cl ∈ sa.claims,
         cl.microlies =
           (cl.probability_interpreted * (1 - cl.probability_true)) ^ 3 * 1000000) ∧
    microliesFor 1 0 = 1000000 ∧
    (∀ t : ℚ, microliesFor 0 t = 0) ∧
    (∀ p : ℚ, microliesFor p 1 = 0) ∧
    (∀ p p' t : ℚ, 0 ≤ p → p ≤ p' → t ≤ 1 → microliesFor p t ≤ microliesFor p' t) ∧
    (∀ p t t' : ℚ, 0 ≤ p → t ≤ t' → t' ≤ 1 → microliesFor p t' ≤ microliesFor p t) := by
  refine ⟨?_, by norm_num [microliesFor], by simp [microliesFor], by simp [microliesFor], ?_, ?_⟩
  · intro o a ms mc sk res log h sa hsa cl hcl
    obtain ⟨-, hmem⟩ := analyze_article_ok o a ms mc sk h
    obtain ⟨log2, hev⟩ := hmem sa hsa
    obtain ⟨-, -, cs, hclaims⟩ := evalSentence_ok o a mc sa.sentence hev
    rw [hclaims] at hcl
    exact evalClaimList_microlies o a sa.sentence cs cl hcl
  · intro p p' t hp hpp ht
    unfold microliesFor
    have h1 : (0 : ℚ) ≤ 1 - t := by linarith
    have h2 : p * (1 - t) ≤ p' * (1 - t) := mul_le_mul_of_nonneg_right hpp h1
    have h3 : (0 : ℚ) ≤ p * (1 - t) := mul_nonneg hp h1
    have h4 := pow_le_pow_left₀ h3 h2 3
    nlinarith [h4]
  · intro p t t' hp htt ht'
    unfold microliesFor
    have h1 : (0 : ℚ) ≤ 1 - t' := by linarith
    have h2 : p * (1 - t') ≤ p * (1 - t) := mul_le_mul_of_nonneg_left (by linarith) hp
    have h3 : (0 : ℚ) ≤ p * (1 - t') := mul_nonneg hp h1
    have h4 := pow_le_pow_left₀ h3 h2 3
    nlinarith [h4]

/-- The microlies-formula claim instantiated on the stub run (and one
monotonicity instance with its bounds discharged concretely). -/
theorem claim_C1_witness :
    stubClaim.microlies =
      (stubClaim.probability_interpreted * (1 - stubClaim.probability_true)) ^ 3 * 1000000 ∧
    microliesFor (4 / 5) (3 / 10) ≤ microliesFor 1 (3 / 10) := by
  have h : analyze_article stubOracle stubArticle none none 0 = (.ok stubRes, stubRun.2) :=
    stubRun_eq
  constructor
  · exact claim_C1_microlies_formula.1 stubOracle stubArticle none none 0 stubRes stubRun.2 h
      stubSA (headD_mem _ stubRes_ne_nil) stubClaim (headD_mem _ stubSA_claims_ne_nil)
  · exact claim_C1_microlies_formula.2.2.2.2.1 (4 / 5) 1 (3 / 10)
      (by norm_num) (by norm_num) (by norm_num)

/-! ## Claim C2 -/

/-- Claim C2: for every analysis result, each sentence record's
sentence_microlies is the sum of its claims' microlies (0 for an empty
claim list), and the article_microlies computed when results are assembled
by save_results is the sum of the sentence_microlies values. -/
theorem claim_C2_sum_invariants :
    ∀ (o : Oracle) (a : List Char) (ms mc : Option Int) (sk : Int)
      (res : List SentenceAnalysis) (log : List OracleCall),
      analyze_article o a ms mc sk = (.ok res, log) →
      (∀ sa ∈ res,
        sa.sentence_microlies = (sa.claims.map Claim.microlies).sum ∧
        (sa.claims = [] → sa.sentence_microlies = 0)) ∧
      (save_results res).article_microlies = (res.map SentenceAnalysis.sentence_microlies).sum := by
  intro o a ms mc sk res log h
  obtain ⟨-, hmem⟩ := analyze_article_ok o a ms mc sk h
  refine ⟨?_, rfl⟩
  intro sa hsa
  obtain ⟨log2, hev⟩ := hmem sa hsa
  obtain ⟨-, hsum, -⟩ := evalSentence_ok o a mc sa.sentence hev
  refine ⟨hsum, ?_⟩
  intro hnil
  rw [hsum, hnil]
  simp

/-- The sum invariants instantiated on the stub run. -/
theorem claim_C2_witness :
    stubSA.sentence_microlies = (stubSA.claims.map Claim.microlies).sum ∧
    (save_results stubRes).article_microlies =
      (stubRes.map SentenceAnalysis.sentence_microlies).sum := by
  have h : analyze_article stubOracle stubArticle none none 0 = (.ok stubRes, stubRun.2) :=
    stubRun_eq
  have h2 := claim_C2_sum_invariants stubOracle stubArticle none none 0 stubRes stubRun.2 h
  exact ⟨(h2.1 stubSA (headD_mem _ stubRes_ne_nil)).1, h2.2⟩

/-! ## Claim C8 -/

/-- Claim C8: for every analysis result, including one with zero sentences
or zero claims, the derived rates are each 0 whenever their denominator
(total sentences or total claims) is 0, so the guarded definitions never
divide by zero. -/
theorem claim_C8_rates_guarded :
    ∀ results : List SentenceAnalysis,
      ((mkSummary results).total_sentences = 0 →
        (mkSummary results).avg_claims_per_sentence = 0 ∧
        (mkSummary results).avg_microlies_per_sentence = 0 ∧
        (mkSummary results).avg_microlies_per_claim = 0) ∧
      ((mkSummary results).total_claims = 0 →
        (mkSummary results).avg_microlies_per_claim = 0) := by
  intro results
  constructor
  · intro h
    simp only [mkSummary] at h
    have hnil : results = [] := List.length_eq_zero.mp h
    subst hnil
    refine ⟨?_, ?_, ?_⟩ <;> simp [mkSummary]
  · intro h
    simp only [mkSummary] at h ⊢
    simp [h]

/-- The guarded rates instantiated at the empty result (both denominators
zero). -/
theorem claim_C8_witness :
    (mkSummary []).avg_claims_per_sentence = 0 ∧
    (mkSummary []).avg_microlies_per_sentence = 0 ∧
    (mkSummary []).avg_microlies_per_claim = 0 :=
  (claim_C8_rates_guarded []).1 rfl

/-! ## Claim C9 -/

/-- Claim C9 as stated is false: the CLI entry point main() is a caller of
analyze_article and passes the user-supplied --sentences value through
unclamped, so max_sentences = 100 reaches the pipeline although 100
exceeds the cap of 50. -/
theorem claim_C9_counterexample :
    mainMaxSentences (some 100) = some 100 ∧ ¬ ((100 : Int) ≤ 50) :=
  ⟨rfl, by norm_num⟩

/-- Claim C9 amended: the three web routes clamp before calling the
pipeline (numeric max_sentences bounded by 50, max_claims by 10), while
the CLI main() passes both limits through unchanged. -/
theorem claim_C9_web_clamps :
    (∀ raw, postMaxSentences raw ≤ 50) ∧
    (∀ raw, postMaxClaims raw ≤ 10) ∧
    (∀ raw, getMaxSentences raw ≤ 50) ∧
    (∀ raw, getMaxClaims raw ≤ 10) ∧
    (∀ v w, apiMaxSentences (some v) = some w → w ≤ 50) ∧
    (∀ v w, apiMaxClaims (some v) = some w → w ≤ 10) ∧
    (∀ x, mainMaxSentences x = x ∧ mainMaxClaims x = x) := by
  refine ⟨?_, ?_, ?_, ?_, ?_, ?_, fun x => ⟨rfl, rfl⟩⟩
  · intro raw
    cases raw with
    | none => norm_num [postMaxSentences]
    | some n => simp only [postMaxSentences]; split <;> omega
  · intro raw
    cases raw with
    | none => norm_num [postMaxClaims]
    | some n => simp only [postMaxClaims]; split <;> omega
  · intro raw
    cases raw with
    | none => norm_num [getMaxSentences]
    | some n => simp only [getMaxSentences]; split <;> omega
  · intro raw
    cases raw with
    | none => norm_num [getMaxClaims]
    | some n => simp only [getMaxClaims]; split <;> omega
  · intro v w h
    simp only [apiMaxSentences, Option.some.injEq] at h
    subst h
    split <;> omega
  · intro v w h
    simp only [apiMaxClaims, Option.some.injEq] at h
    subst h
    split <;> omega

/-- The amended clamp facts instantiated at concrete over-cap inputs. -/
theorem claim_C9_witness :
    postMaxSentences (some 100) ≤ 50 ∧ (50 : Int) ≤ 50 ∧ mainMaxSentences (some 100) = some 100 :=
  ⟨claim_C9_web_clamps.1 (some 100),
   claim_C9_web_clamps.2.2.2.2.1 60 50 rfl,
   (claim_C9_web_clamps.2.2.2.2.2.2 (some 100)).1⟩

/-! ## Claim C10 -/

/-- Truncating claims to at most 0 is the same as not truncating: the code
guards the slice with Python truthiness, under which 0 is falsy. -/
theorem evalSentence_some_zero (o : Oracle) (a s : List Char) :
    evalSentence o a (some 0) s = evalSentence o a none s := rfl

/-- Two configurations whose sentence evaluations agree produce the same
run. -/
theorem analyzeSentenceList_congr_mc (o : Oracle) (a : List Char) (mc1 mc2 : Option Int)
    (h : ∀ s, evalSentence o a mc1 s = evalSentence o a mc2 s) :
    ∀ lst, analyzeSentenceList o a mc1 lst = analyzeSentenceList o a mc2 lst := by
  intro lst
  induction lst with
  | nil => rfl
  | cons s rest ih => simp only [analyzeSentenceList, h s, ih]

/-- Claim C10: a limit value of 0 disables the limit (max_sentences = 0
behaves as None, max_claims = 0 behaves as None), skip_sentences at most 0
skips nothing, None applies no sentence limit, and a negative
max_sentences keeps all but the last |max_sentences| sentences, by Python
slice semantics. -/
theorem claim_C10_zero_disables :
    (∀ (o : Oracle) (a : List Char) (mc : Option Int) (sk : Int),
       analyze_article o a (some 0) mc sk = analyze_article o a none mc sk) ∧
    (∀ (o : Oracle) (a : List Char) (ms : Option Int) (sk : Int),
       analyze_article o a ms (some 0) sk = analyze_article o a ms none sk) ∧
    (∀ (o : Oracle) (a : List Char) (ms mc : Option Int) (sk : Int), sk ≤ 0 →
       analyze_article o a ms mc sk = analyze_article o a ms mc 0) ∧
    (∀ (sentences : List (List Char)) (sk : Int),
       applyLimits sentences none sk =
         (if 0 < sk then sentences.drop sk.toNat else sentences)) ∧
    (∀ (sentences : List (List Char)) (sk m : Int), m < 0 →
       applyLimits sentences (some m) sk =
         (let s1 := if 0 < sk then sentences.drop sk.toNat else sentences
          s1.take (s1.length - m.natAbs))) := by
  refine ⟨?_, ?_, ?_, fun sentences sk => rfl, ?_⟩
  · intro o a mc sk
    rfl
  · intro o a ms sk
    unfold analyze_article
    exact analyzeSentenceList_congr_mc o a (some 0) none
      (fun s => evalSentence_some_zero o a s) _
  · intro o a ms mc sk hsk
    unfold analyze_article applyLimits
    rw [if_neg (by omega), if_neg (by omega)]
  · intro sentences sk m hm
    simp only [applyLimits, sliceStop]
    rw [if_neg (by omega : ¬ m = 0), if_neg (by omega : ¬ (0 : Int) ≤ m)]
    have h2 : (-m).toNat = m.natAbs := by omega
    rw [h2]

/-- The disabled-limit equations instantiated on the stub article. -/
theorem claim_C10_witness :
    analyze_article stubOracle stubArticle none none (-3) =
      analyze_article stubOracle stubArticle none none 0 ∧
    applyLimits (split_into_sentences stubArticle) (some (-1)) 0 =
      (let s1 := if (0 : Int) < 0
                 then (split_into_sentences stubArticle).drop (0 : Int).toNat
                 else split_into_sentences stubArticle
       s1.take (s1.length - (-1 : Int).natAbs)) :=
  ⟨claim_C10_zero_disables.2.2.1 stubOracle stubArticle none none (-3) (by norm_num),
   claim_C10_zero_disables.2.2.2.2 (split_into_sentences stubArticle) 0 (-1) (by norm_num)⟩

/-! ## Claim C4 -/

/-- A failed extraction call is absorbed into an empty-claims sentence
record, with only the extraction call logged. -/
theorem evalSentence_extract_error (o : Oracle) (a : List Char) (mc : Option Int)
    (s e : List Char) (h : o.extractResponse s = .error e) :
    evalSentence o a mc s =
      (.ok { sentence := s, claims := [], sentence_microlies := 0 }, [.extractCall s]) := by
  have hext : extract_claims o s = .arr [] := by
    unfold extract_claims
    rw [h]
  rcases mc with _ | m
  · unfold evalSentence
    rw [hext]
    rfl
  · by_cases hm : m = 0
    · subst hm
      unfold evalSentence
      rw [hext]
      rfl
    · unfold evalSentence
      rw [hext]
      simp [truncateClaims, truncateVal, sliceStop, hm, pyIterVal, evalClaimList]

/-- Decodable-but-failed extraction output (json.loads raises) is absorbed
the same way. -/
theorem evalSentence_extract_undecodable (o : Oracle) (a : List Char) (mc : Option Int)
    (s content : List Char) (h : o.extractResponse s = .ok content)
    (h2 : jsonParse (extractCleaned content) = none) :
    evalSentence o a mc s =
      (.ok { sentence := s, claims := [], sentence_microlies := 0 }, [.extractCall s]) := by
  have hext : extract_claims o s = .arr [] := by
    unfold extract_claims
    simp only [h, h2]
  rcases mc with _ | m
  · unfold evalSentence
    rw [hext]
    rfl
  · by_cases hm : m = 0
    · subst hm
      unfold evalSentence
      rw [hext]
      rfl
    · unfold evalSentence
      rw [hext]
      simp [truncateClaims, truncateVal, sliceStop, hm, pyIterVal, evalClaimList]

/-- Claim C4: failures inside the per-claim evaluation loop never abort
the analysis.  A failed interpretation (or truth) call yields probability
1/2 with the error text as that field's explanation while the record is
still produced; the per-claim loop emits one record per retained text
(never dropping any); a failed or undecodable extraction yields the
sentence with an empty claim list and zero microlies; and such a sentence
still appears in a successful run's results. -/
theorem claim_C4_failures_absorbed :
    (∀ (o : Oracle) (a s : List Char) (c : JsonVal) (e : List Char),
       o.interpResponse s c a = .error e →
       (evalClaim o a s c).probability_interpreted = 1 / 2 ∧
       (evalClaim o a s c).interpretation_explanation = .str (( "Error: ").data ++ e)) ∧
    (∀ (o : Oracle) (a s : List Char) (c : JsonVal) (e : List Char),
       o.truthResponse c a = .error e →
       (evalClaim o a s c).probability_true = 1 / 2 ∧
       (evalClaim o a s c).truth_explanation = .str (( "Error: ").data ++ e)) ∧
    (∀ (o : Oracle) (a s : List Char) (cs : List JsonVal),
       ((evalClaimList o a s cs).1.map Claim.text) = cs) ∧
    (∀ (o : Oracle) (a : List Char) (mc : Option Int) (s e : List Char),
       o.extractResponse s = .error e →
       evalSentence o a mc s =
         (.ok { sentence := s, claims := [], sentence_microlies := 0 }, [.extractCall s])) ∧
    (∀ (o : Oracle) (a : List Char) (mc : Option Int) (s content : List Char),
       o.extractResponse s = .ok content →
       jsonParse (extractCleaned content) = none →
       evalSentence o a mc s =
         (.ok { sentence := s, claims := [], sentence_microlies := 0 }, [.extractCall s])) ∧
    (∀ (o : Oracle) (a : List Char) (ms mc : Option Int) (sk : Int)
       (res : List SentenceAnalysis) (log : List OracleCall) (s e : List Char),
       analyze_article o a ms mc sk = (.ok res, log) →
       s ∈ applyLimits (split_into_sentences a) ms sk →
       o.extractResponse s = .error e →
       ({ sentence := s, claims := [], sentence_microlies := 0 } : SentenceAnalysis) ∈ res) := by
  refine ⟨?_, ?_, fun o a s cs => evalClaimList_map_text o a s cs,
    fun o a mc s e h => evalSentence_extract_error o a mc s e h,
    fun o a mc s content h h2 => evalSentence_extract_undecodable o a mc s content h h2, ?_⟩
  · intro o a s c e h
    unfold evalClaim calculate_interpretation_probability
    rw [h]
    exact ⟨rfl, rfl⟩
  · intro o a s c e h
    unfold evalClaim calculate_truth_probability
    rw [h]
    exact ⟨rfl, rfl⟩
  · intro o a ms mc sk res log s e h hs hext
    obtain ⟨hmap, hmem⟩ := analyze_article_ok o a ms mc sk h
    rw [← hmap] at hs
    obtain ⟨sa, hsa, hseq⟩ := List.mem_map.mp hs
    obtain ⟨log2, hev⟩ := hmem sa hsa
    rw [hseq] at hev
    have h4 := evalSentence_extract_error o a mc s e hext
    rw [hev] at h4
    simp only [Prod.mk.injEq, Except.ok.injEq] at h4
    rw [← h4.1]
    exact hsa

/-- An oracle whose calls all fail. -/
def failOracle : Oracle where
  extractResponse := fun _ => .error ( "connection refused").data
  interpResponse := fun _ _ _ => .error ( "timeout A").data
  truthResponse := fun _ _ => .error ( "timeout B").data

/-- A concrete sentence used to instantiate the failure-absorption facts. -/
def failSentence : List Char := ( "A sentence with failures.").data

/-- The failure-absorption facts instantiated on the failing oracle. -/
theorem claim_C4_witness :
    (evalClaim failOracle stubArticle failSentence (.str ( "c").data)).probability_interpreted
        = 1 / 2 ∧
    (evalClaim failOracle stubArticle failSentence (.str ( "c").data)).interpretation_explanation
        = .str (( "Error: ").data ++ ( "timeout A").data) ∧
    (evalClaim failOracle stubArticle failSentence (.str ( "c").data)).probability_true = 1 / 2 ∧
    evalSentence failOracle stubArticle (some 3) failSentence =
      (.ok { sentence := failSentence, claims := [], sentence_microlies := 0 },
       [.extractCall failSentence]) := by
  have h1 := claim_C4_failures_absorbed.1 failOracle stubArticle failSentence
    (.str ( "c").data) ( "timeout A").data rfl
  have h2 := claim_C4_failures_absorbed.2.1 failOracle stubArticle failSentence
    (.str ( "c").data) ( "timeout B").data rfl
  have h3 := claim_C4_failures_absorbed.2.2.2.1 failOracle stubArticle (some 3) failSentence
    ( "connection refused").data rfl
  exact ⟨h1.1, h1.2, h2.1, h3⟩

/-! ## Claim C7 -/

/-- Claim C7: skip_sentences is applied before max_sentences (positive
skip k and positive limit m analyze the k+1st through k+mth segmented
sentences in order, so skip 2 and limit 3 give 1-indexed sentences 3 to 5
of any article with at least 5); a successful run's sentences are exactly
the limited segmentation in order; with a positive max_claims and a
decoded claim list, only the first max_claims texts are evaluated; and the
oracle log shows exactly one interpretation and one truth call per
retained claim — none for discarded ones. -/
theorem claim_C7_limits_and_calls :
    (∀ (lst : List (List Char)) (sk m : Int), 0 < sk → 0 < m →
       applyLimits lst (some m) sk = (lst.drop sk.toNat).take m.toNat) ∧
    (∀ (o : Oracle) (a : List Char) (ms mc : Option Int) (sk : Int)
       (res : List SentenceAnalysis) (log : List OracleCall),
       analyze_article o a ms mc sk = (.ok res, log) →
       res.map SentenceAnalysis.sentence = applyLimits (split_into_sentences a) ms sk) ∧
    (∀ (o : Oracle) (a s : List Char) (m : Int) (content : List Char) (vs : List JsonVal),
       0 < m → o.extractResponse s = .ok content →
       jsonParse (extractCleaned content) = some (.arr vs) →
       evalSentence o a (some m) s =
         (.ok { sentence := s
                claims := (evalClaimList o a s (vs.take m.toNat)).1
                sentence_microlies :=
                  ((evalClaimList o a s (vs.take m.toNat)).1.map Claim.microlies).sum },
          .extractCall s :: (evalClaimList o a s (vs.take m.toNat)).2)) ∧
    (∀ (o : Oracle) (a s : List Char) (cs : List JsonVal),
       (evalClaimList o a s cs).2 =
         cs.flatMap (fun c => [OracleCall.interpCall s c, OracleCall.truthCall c])) ∧
    (∀ (o : Oracle) (a s : List Char) (cs : List JsonVal),
       ((evalClaimList o a s cs).1.map Claim.text) = cs) := by
  refine ⟨?_, fun o a ms mc sk res log h => (analyze_article_ok o a ms mc sk h).1, ?_,
    fun o a s cs => evalClaimList_log o a s cs, fun o a s cs => evalClaimList_map_text o a s cs⟩
  · intro lst sk m hsk hm
    simp only [applyLimits, sliceStop]
    rw [if_pos hsk, if_neg (by omega : ¬ m = 0), if_pos (by omega : (0 : Int) ≤ m)]
  · intro o a s m content vs hm hext hjson
    have hclaims : extract_claims o s = .arr vs := by
      unfold extract_claims
      simp only [hext, hjson]
    unfold evalSentence
    rw [hclaims]
    simp only [truncateClaims, truncateVal, sliceStop, if_neg (by omega : ¬ m = 0),
      if_pos (by omega : (0 : Int) ≤ m), pyIterVal]

/-- An oracle that extracts five claims per sentence. -/
def fiveClaimOracle : Oracle where
  extractResponse := fun _ => .ok ( "[\"a\", \"b\", \"c\", \"d\", \"e\"]").data
  interpResponse := fun _ _ _ =>
    .ok ( "\x7b\"explanation\": \"stated\", \"probability\": 0.6\x7d").data
  truthResponse := fun _ _ =>
    .ok ( "\x7b\"explanation\": \"likely\", \"probability\": 0.9\x7d").data

/-- The five decoded claim texts of fiveClaimOracle. -/
def fiveClaims : List JsonVal :=
  [.str ( "a").data, .str ( "b").data, .str ( "c").data, .str ( "d").data, .str ( "e").data]

/-- A ten-entry sentence list for the skip/limit instance. -/
def tenSentences : List (List Char) :=
  [( "s1").data, ( "s2").data, ( "s3").data, ( "s4").data, ( "s5").data,
   ( "s6").data, ( "s7").data, ( "s8").data, ( "s9").data, ( "s10").data]

/-- The skip-then-limit order and the claim-truncation behavior
instantiated concretely: skip 2, limit 3 on ten sentences selects entries
3 to 5, and max_claims = 2 on five extracted claims evaluates exactly the
first two, with one interpretation and one truth call each. -/
theorem claim_C7_witness :
    applyLimits tenSentences (some 3) 2 = (tenSentences.drop (2 : Int).toNat).take (3 : Int).toNat ∧
    evalSentence fiveClaimOracle stubArticle (some 2) failSentence =
      (.ok { sentence := failSentence
             claims := (evalClaimList fiveClaimOracle stubArticle failSentence
               (fiveClaims.take (2 : Int).toNat)).1
             sentence_microlies :=
               ((evalClaimList fiveClaimOracle stubArticle failSentence
                 (fiveClaims.take (2 : Int).toNat)).1.map Claim.microlies).sum },
       .extractCall failSentence :: (evalClaimList fiveClaimOracle stubArticle failSentence
         (fiveClaims.take (2 : Int).toNat)).2) := by
  constructor
  · exact claim_C7_limits_and_calls.1 tenSentences 2 3 (by norm_num) (by norm_num)
  · exact claim_C7_limits_and_calls.2.2.1 fiveClaimOracle stubArticle failSentence 2
      (( "[\"a\", \"b\", \"c\", \"d\", \"e\"]").data) fiveClaims (by norm_num) rfl rfl

/-! ## Claim C6 -/

/-- dropWhile is idempotent. -/
theorem dropWhile_idem (p : Char → Bool) (l : List Char) :
    (l.dropWhile p).dropWhile p = l.dropWhile p := by
  induction l with
  | nil => rfl
  | cons c r ih =>
    by_cases h : p c
    · simp [List.dropWhile_cons, h, ih]
    · simp [List.dropWhile_cons, h]

/-- Stripping trailing whitespace yields a prefix of the input. -/
theorem stripEnd_prefix (l : List Char) : stripEnd l <+: l := by
  unfold stripEnd
  have h := List.dropWhile_suffix (l := l.reverse) wsPy
  rw [← List.reverse_reverse (l.reverse.dropWhile wsPy)] at h
  exact List.reverse_suffix.mp h

/-- A front-stripped list stays front-stripped after stripping its end. -/
theorem dropWhile_stripEnd (x : List Char) (hx : x.dropWhile wsPy = x) :
    (stripEnd x).dropWhile wsPy = stripEnd x := by
  cases hse : stripEnd x with
  | nil => rfl
  | cons c r =>
    obtain ⟨t, ht⟩ := stripEnd_prefix x
    rw [hse] at ht
    have hc : wsPy c = false := by
      by_contra hcc
      have hc' : wsPy c = true := by
        cases hcw : wsPy c
        · exact absurd hcw hcc
        · rfl
      rw [← ht, List.cons_append, List.dropWhile_cons, if_pos hc'] at hx
      have hlen := congrArg List.length hx
      simp only [List.length_cons, List.length_append] at hlen
      have hle := (List.dropWhile_sublist (l := r ++ t) wsPy).length_le
      simp only [List.length_append] at hle
      omega
    simp [List.dropWhile_cons, hc]

/-- stripEnd is idempotent. -/
theorem stripEnd_idem (l : List Char) : stripEnd (stripEnd l) = stripEnd l := by
  show stripEnd ((l.reverse.dropWhile wsPy).reverse) = stripEnd l
  unfold stripEnd
  rw [List.reverse_reverse, dropWhile_idem]

/-- pyStrip is idempotent, so every kept fragment is its own trim. -/
theorem pyStrip_idem (l : List Char) : pyStrip (pyStrip l) = pyStrip l := by
  unfold pyStrip
  rw [dropWhile_stripEnd (l.dropWhile wsPy) (dropWhile_idem wsPy l), stripEnd_idem]

/-- The one-step unfolding of the split worker on a nonempty input. -/
theorem rawSplitAux_cons (f : Nat) (c : Char) (rest acc : List Char) :
    rawSplitAux (f + 1) (c :: rest) acc =
      if isSentEnd (acc.headD ' ') && wsPy c && headUpper (rest.dropWhile wsPy) then
        acc.reverse :: rawSplitAux f (rest.dropWhile wsPy) []
      else rawSplitAux f rest (c :: acc) := rfl

/-- On text with no sentence-terminal punctuation the splitter never cuts. -/
theorem rawSplitAux_no_punct :
    ∀ (fuel : Nat) (l acc : List Char), l.length < fuel →
      (∀ c ∈ l, isSentEnd c = false) → (∀ c ∈ acc, isSentEnd c = false) →
      rawSplitAux fuel l acc = [acc.reverse ++ l] := by
  intro fuel
  induction fuel with
  | zero => intro l acc h _ _; exact absurd h (by omega)
  | succ f ih =>
    intro l acc hl hlp hap
    cases l with
    | nil => simp [rawSplitAux]
    | cons c rest =>
      have hcond : isSentEnd (acc.head?.getD ' ') = false := by
        cases acc with
        | nil => rfl
        | cons a t => exact hap a (List.mem_cons_self a t)
      rw [rawSplitAux_cons, if_neg (by simp [hcond]),
        ih rest (c :: acc) (by simp at hl; omega)
          (fun x hx => hlp x (List.mem_cons_of_mem c hx))
          (fun x hx => by
            rcases List.mem_cons.mp hx with h1 | h2
            · subst h1; exact hlp x (List.mem_cons_self x rest)
            · exact hap x h2)]
      simp

/-- The relation between a text and a fragment sequence obtained by
splitting it exactly at whitespace runs preceded by sentence-terminal
punctuation and followed by an uppercase letter: consecutive fragments are
separated by a nonempty all-whitespace run, the fragment before each cut
ends in one of . ! ? and the text after the run starts with an uppercase
letter.  Concatenating fragments and runs back gives the original text,
so order is preserved. -/
inductive SplitsInto : List Char → List (List Char) → Prop where
  | single (l : List Char) : SplitsInto l [l]
  | more (frag ws rest : List Char) (frags : List (List Char)) (p u : Char)
      (rest2 : List Char) :
      frag.getLast? = some p → isSentEnd p = true →
      ws ≠ [] → (∀ c ∈ ws, wsPy c = true) →
      rest = u :: rest2 → isUpperAZ u = true →
      SplitsInto rest frags →
      SplitsInto (frag ++ ws ++ rest) (frag :: frags)

/-- The split worker realizes the SplitsInto relation. -/
theorem rawSplitAux_splitsInto :
    ∀ (fuel : Nat) (l acc : List Char), l.length < fuel →
      SplitsInto (acc.reverse ++ l) (rawSplitAux fuel l acc) := by
  intro fuel
  induction fuel with
  | zero => intro l acc h; exact absurd h (by omega)
  | succ f ih =>
    intro l acc hl
    cases l with
    | nil =>
      simp only [rawSplitAux, List.append_nil]
      exact SplitsInto.single acc.reverse
    | cons c rest =>
      by_cases hcond :
          (isSentEnd (acc.headD ' ') && wsPy c && headUpper (rest.dropWhile wsPy)) = true
      · have hparts : (isSentEnd (acc.head?.getD ' ') = true ∧ wsPy c = true) ∧
            headUpper (rest.dropWhile wsPy) = true := by simpa using hcond
        obtain ⟨⟨hpunct, hwc⟩, h2⟩ := hparts
        rw [rawSplitAux_cons, if_pos hcond]
        have hrec := ih (rest.dropWhile wsPy) []
          (by
            have := (List.dropWhile_sublist (l := rest) wsPy).length_le
            simp at hl
            omega)
        simp only [List.reverse_nil, List.nil_append] at hrec
        cases acc with
        | nil => exact absurd hpunct (by simp [isSentEnd])
        | cons a t =>
          cases hdw : rest.dropWhile wsPy with
          | nil => rw [hdw] at h2; exact absurd h2 (by simp [headUpper])
          | cons u rest2 =>
            have heq : (a :: t).reverse ++ c :: rest =
                (a :: t).reverse ++ (c :: rest.takeWhile wsPy) ++ rest.dropWhile wsPy := by
              rw [List.append_assoc, List.cons_append, List.takeWhile_append_dropWhile]
            rw [heq, hdw]
            refine SplitsInto.more (a :: t).reverse (c :: rest.takeWhile wsPy)
              (u :: rest2) _ a u rest2 ?_ hpunct (by simp) ?_ rfl ?_ ?_
            · rw [List.getLast?_reverse]; rfl
            · intro x hx
              rcases List.mem_cons.mp hx with h3 | h4
              · subst h3; exact hwc
              · exact List.mem_takeWhile_imp h4
            · rw [hdw] at h2; simpa [headUpper] using h2
            · rw [hdw] at hrec; exact hrec
      · rw [rawSplitAux_cons, if_neg hcond]
        have hrec := ih rest (c :: acc) (by simp at hl; omega)
        simpa [List.reverse_cons, List.append_assoc] using hrec

/-- Claim C6: segmentation splits at . ! ? followed by whitespace and an
uppercase letter (fragments reassemble to the input around all-whitespace
separators whose left fragment ends in terminal punctuation and whose
right context starts uppercase, in order), trims each fragment and keeps
only those longer than 10 characters; empty input gives no sentences;
punctuation-free text gives the whole trimmed text when longer than 10
characters and nothing otherwise; and the worked example keeps exactly its
two long sentences. -/
theorem claim_C6_segmentation :
    split_into_sentences [] = [] ∧
    (∀ t : List Char, (∀ c ∈ t, isSentEnd c = false) →
      split_into_sentences t = if 10 < (pyStrip t).length then [pyStrip t] else []) ∧
    split_into_sentences ( "Sales rose. The CEO announced new plans. OK.").data =
      [( "Sales rose.").data, ( "The CEO announced new plans.").data] ∧
    (∀ t s, s ∈ split_into_sentences t → 10 < s.length ∧ pyStrip s = s) ∧
    (∀ t : List Char, SplitsInto t (rawSplit t)) := by
  refine ⟨rfl, ?_, by rfl, ?_, ?_⟩
  · intro t hnp
    unfold split_into_sentences rawSplit
    rw [rawSplitAux_no_punct (t.length + 1) t [] (by omega) hnp (by simp)]
    simp only [List.reverse_nil, List.nil_append, List.map_cons, List.map_nil]
    by_cases h : 10 < (pyStrip t).length
    · simp [List.filter_cons, h]
    · simp [List.filter_cons, h]
  · intro t s hs
    unfold split_into_sentences at hs
    obtain ⟨hmem, hlen⟩ := List.mem_filter.mp hs
    obtain ⟨x, hx, hsx⟩ := List.mem_map.mp hmem
    refine ⟨by simpa using hlen, ?_⟩
    rw [← hsx]
    exact pyStrip_idem x
  · intro t
    have h := rawSplitAux_splitsInto (t.length + 1) t [] (by omega)
    simpa using h

/-- The segmentation facts instantiated concretely: punctuation-free text
keeps the whole trim, and the first kept sentence of the worked example is
trimmed and longer than 10 characters. -/
theorem claim_C6_witness :
    split_into_sentences ( "no punctuation but long").data =
      (if 10 < (pyStrip ( "no punctuation but long").data).length
       then [pyStrip ( "no punctuation but long").data] else []) ∧
    (10 < ( "Sales rose.").data.length ∧
      pyStrip ( "Sales rose.").data = ( "Sales rose.").data) := by
  constructor
  · exact claim_C6_segmentation.2.1 ( "no punctuation but long").data (by decide)
  · exact claim_C6_segmentation.2.2.2.1
      ( "Sales rose. The CEO announced new plans. OK.").data ( "Sales rose.").data
      (by rw [claim_C6_segmentation.2.2.1]; exact List.mem_cons_self _ _)

/-! ## Claim C3 -/

/-- The Python clamp max(0.0, min(1.0, p)) lands in [0, 1] for every float,
the special values included. -/
theorem clampProb_bounds (f : PyFloat) : 0 ≤ clampProb f ∧ clampProb f ≤ 1 := by
  cases f with
  | fin q =>
    exact ⟨le_max_left 0 (min 1 q), max_le (by norm_num) (min_le_left 1 q)⟩
  | fnan => norm_num [clampProb]
  | finf => norm_num [clampProb]
  | fninf => norm_num [clampProb]

/-- A successful field extraction always returns a clamped probability. -/
theorem extractProbExpl_ok_bounds (v : JsonVal) (p : ℚ) (e : JsonVal)
    (h : extractProbExpl v = .ok (p, e)) : 0 ≤ p ∧ p ≤ 1 := by
  cases v with
  | obj ms =>
    unfold extractProbExpl at h
    rcases hf : pyFloat (objGetD ms ( "probability").data (.num (1 / 2))) with e' | f <;>
      simp only [Function.comp, hf] at h
    · simp at h
    · simp only [Except.ok.injEq, Prod.mk.injEq] at h
      rw [← h.1]
      exact clampProb_bounds f
  | null => simp [extractProbExpl] at h
  | bool b => simp [extractProbExpl] at h
  | num q => simp [extractProbExpl] at h
  | nan => simp [extractProbExpl] at h
  | inf => simp [extractProbExpl] at h
  | ninf => simp [extractProbExpl] at h
  | str s => simp [extractProbExpl] at h
  | arr xs => simp [extractProbExpl] at h

/-- The numeric-token fallback also returns a clamped probability. -/
theorem fallbackParse_bounds (s : List Char) :
    0 ≤ (fallbackParse s).1 ∧ (fallbackParse s).1 ≤ 1 := by
  unfold fallbackParse
  cases h : findFirstProbToken s with
  | none => norm_num
  | some t =>
    exact ⟨le_max_left 0 (min 1 (probTokenVal t)), max_le (by norm_num) (min_le_left 1 _)⟩

/-- Claim C3 as stated is false: the parser does not return a pair on
every input.  On the input "null" the cleaned text decodes (as a whole) to
None, result.get then raises AttributeError, and the except clause -
which catches only the ValueError family - lets it escape, so no
(probability, explanation) pair is produced and no numeric-token fallback
runs. -/
theorem claim_C3_counterexample :
    parse_probability_response ( "null").data =
      .error (.attributeError ( "NoneType").data) := rfl

/-- Claim C3 amended: the parser returns a pair with the probability
clamped to [0, 1] on every input except those where a structural decode
succeeds but field extraction raises outside the caught ValueError family
(a non-dict decode or a null/list/dict probability field); there it raises
that error.  Whenever the structural decode fails it returns exactly the
numeric-token fallback, which on "0.42 is my estimate" yields 0.42 with a
fallback explanation and on token-free text yields 0.5 with a parse-failed
explanation. -/
theorem claim_C3_parser_fallback :
    (∀ (s : List Char) (p : ℚ) (e : JsonVal),
       parse_probability_response s = .ok (p, e) → 0 ≤ p ∧ p ≤ 1) ∧
    (∀ (s : List Char) (err : PyErr),
       parse_probability_response s = .error err →
       ∃ v, structuralDecode (cleanedText s) = some v ∧
         extractProbExpl v = .error err ∧ err ≠ .valueError) ∧
    (∀ s : List Char, structuralDecode (cleanedText s) = none →
       parse_probability_response s = .ok (fallbackParse s)) ∧
    parse_probability_response ( "0.42 is my estimate").data =
      .ok (21 / 50, .str (( "Fallback parse: ").data ++ ( "0.42 is my estimate").data)) ∧
    parse_probability_response ( "I cannot determine this.").data =
      .ok (1 / 2, .str (( "Parse failed: ").data ++ ( "I cannot determine this.").data)) := by
  have hfall42 : fallbackParse ( "0.42 is my estimate").data =
      (21 / 50, .str (( "Fallback parse: ").data ++ ( "0.42 is my estimate").data)) := by
    have ht : findFirstProbToken ( "0.42 is my estimate").data = some ( "0.42").data := rfl
    have hv : probTokenVal ( "0.42").data = 42 / 100 := by
      show mkDecimal false (digitsToNat ( "0").data) ( "42").data 0 = 42 / 100
      simp [mkDecimal, digitsToNat, digVal]
      norm_num
    unfold fallbackParse
    rw [ht]
    simp only [Prod.mk.injEq]
    exact ⟨by rw [hv]; norm_num, trivial⟩
  refine ⟨?_, ?_, ?_, ?_, by rfl⟩
  · intro s p e h
    unfold parse_probability_response at h
    rcases hd : structuralDecode (cleanedText s) with _ | v <;> simp only [hd] at h
    · simp only [Except.ok.injEq] at h
      have hb := fallbackParse_bounds s
      rw [h] at hb
      simpa using hb
    · rcases he : extractProbExpl v with err | pe <;> simp only [he] at h
      · rcases err with _ | t | t
        · simp only [Except.ok.injEq] at h
          have hb := fallbackParse_bounds s
          rw [h] at hb
          simpa using hb
        · simp at h
        · simp at h
      · simp only [Except.ok.injEq] at h
        subst h
        exact extractProbExpl_ok_bounds v p e he
  · intro s err h
    unfold parse_probability_response at h
    rcases hd : structuralDecode (cleanedText s) with _ | v <;> simp only [hd] at h
    · simp at h
    · rcases he : extractProbExpl v with err' | pe <;> simp only [he] at h
      · rcases err' with _ | t | t
        · simp at h
        · simp only [Except.error.injEq] at h
          exact ⟨v, rfl, by rw [he, h], by rw [← h]; intro hc; cases hc⟩
        · simp only [Except.error.injEq] at h
          exact ⟨v, rfl, by rw [he, h], by rw [← h]; intro hc; cases hc⟩
      · simp at h
  · intro s hd
    unfold parse_probability_response
    rw [hd]
  · have hstep : parse_probability_response ( "0.42 is my estimate").data =
        .ok (fallbackParse ( "0.42 is my estimate").data) := rfl
    rw [hstep, hfall42]

/-- The fallback characterization instantiated: the bare-number input is
clamped and equals its own numeric-token fallback. -/
theorem claim_C3_witness :
    (0 ≤ (21 : ℚ) / 50 ∧ (21 : ℚ) / 50 ≤ 1) ∧
    parse_probability_response ( "no json here at all").data =
      .ok (fallbackParse ( "no json here at all").data) :=
  ⟨claim_C3_parser_fallback.1 ( "0.42 is my estimate").data (21 / 50)
      (.str (( "Fallback parse: ").data ++ ( "0.42 is my estimate").data))
      claim_C3_parser_fallback.2.2.2.1,
   claim_C3_parser_fallback.2.2.1 ( "no json here at all").data rfl⟩

/-! ## Claim C5

A well-formed probability payload: an object with an explanation string
and a probability decimal, optionally wrapped in a code fence.  The
explanation is restricted to characters that need no JSON escaping and
contain no braces, so that the raw and decoded explanations coincide and
the fragment regex sees the whole object. -/

/-- A character of the explanation string: no quote, no backslash, no
brace, not a control character. -/
def safeExplChar (c : Char) : Prop :=
  c ≠ '"' ∧ c ≠ '\\' ∧ c ≠ '{' ∧ c ≠ '}' ∧ 32 ≤ c.toNat

instance (c : Char) : Decidable (safeExplChar c) := by
  unfold safeExplChar
  infer_instance

/-- The decimal text of a probability: a single integer digit, optionally
followed by a dot and fraction digits. -/
def pChars (d : Char) (frac : List Char) : List Char :=
  match frac with
  | [] => [d]
  | _ => d :: '.' :: frac

/-- The exact value such a decimal denotes. -/
def probVal (d : Char) (frac : List Char) : ℚ :=
  mkDecimal false (digitsToNat [d]) frac 0

/-- The serialized payload, in the canonical one-line JSON layout the
prompt requests. -/
def mkProbJson (e p : List Char) : List Char :=
  '{' :: '"' :: (( "explanation").data ++
    ('"' :: ':' :: ' ' :: '"' ::
      (e ++ ('"' :: ',' :: ' ' :: '"' ::
        (( "probability").data ++ ('"' :: ':' :: ' ' :: (p ++ [ '}' ])))))))

/-- The two optional code-fence wrappings of the claim. -/
inductive FenceWrap where
  | bare
  | plain
  | tagged

/-- Apply a wrapping to the payload body. -/
def applyFence : FenceWrap → List Char → List Char
  | .bare, body => body
  | .plain, body => ( "```\n").data ++ body ++ ( "\n```").data
  | .tagged, body => ( "```json\n").data ++ body ++ ( "\n```").data

/-- parseStringBody consumes an escape-free string body verbatim up to the
closing quote. -/
theorem parseStringBody_safe (s : List Char) (r : List Char)
    (h : ∀ c ∈ s, c ≠ '"' ∧ c ≠ '\\' ∧ 32 ≤ c.toNat) :
    parseStringBody (s ++ '"' :: r) = some (s, r) := by
  induction s with
  | nil =>
    show parseStringBody ('"' :: r) = some ([], r)
    unfold parseStringBody
    rfl
  | cons c t ih =>
    obtain ⟨h1, h2, h3⟩ := h c (List.mem_cons_self c t)
    show parseStringBody (c :: (t ++ '"' :: r)) = some (c :: t, r)
    unfold parseStringBody
    rw [if_neg h1, if_neg h2, if_neg (by omega), ih (fun x hx => h x (List.mem_cons_of_mem c hx))]
    rfl

/-- A digit character is not a brace (nor a quote or backslash). -/
theorem digit_chars (c : Char) (h : isDigit c = true) :
    c ≠ '{' ∧ c ≠ '}' ∧ c ≠ '"' := by
  refine ⟨?_, ?_, ?_⟩ <;> rintro rfl <;> simp [isDigit] at h

/-- chPrefix holds of any extension of the pattern. -/
theorem chPrefix_append (p r : List Char) : chPrefix p (p ++ r) = true := by
  induction p with
  | nil => rfl
  | cons c t ih => simp [chPrefix, ih]

/-- chSuffix holds when the pattern ends the text. -/
theorem chSuffix_append (p x : List Char) : chSuffix p (x ++ p) = true := by
  unfold chSuffix
  rw [List.reverse_append]
  exact chPrefix_append p.reverse x.reverse

/-- Scanning a brace-free interior finds the closing brace and returns the
interior verbatim. -/
theorem interiorTo_append (int r : List Char)
    (h : ∀ c ∈ int, c ≠ '{' ∧ c ≠ '}') :
    interiorTo (int ++ '}' :: r) = some (int, r) := by
  induction int with
  | nil =>
    show interiorTo ('}' :: r) = some ([], r)
    unfold interiorTo
    rfl
  | cons c t ih =>
    obtain ⟨h1, h2⟩ := h c (List.mem_cons_self c t)
    show interiorTo (c :: (t ++ '}' :: r)) = some (c :: t, r)
    unfold interiorTo
    rw [if_neg (by simpa using h2), if_neg (by simpa using h1),
      ih (fun x hx => h x (List.mem_cons_of_mem c hx))]
    rfl

/-- Substring containment is stable under prepending text. -/
theorem containsSub_append_right (pat x y : List Char) (h : containsSub pat y = true) :
    containsSub pat (x ++ y) = true := by
  induction x with
  | nil => simpa using h
  | cons c t ih =>
    show containsSub pat (c :: (t ++ y)) = true
    unfold containsSub dropToAfter
    split
    · rfl
    · exact ih

/-- dropWhile is the identity when the head fails the predicate. -/
theorem dropWhile_head_not (p : Char → Bool) (l : List Char) (c : Char)
    (h : l.head? = some c) (hc : p c = false) : l.dropWhile p = l := by
  cases l with
  | nil => rfl
  | cons a t =>
    simp only [List.head?_cons, Option.some.injEq] at h
    subst h
    simp [List.dropWhile_cons, hc]

/-- pyStrip is the identity on text with non-whitespace endpoints. -/
theorem pyStrip_eq_self (l : List Char) (c1 c2 : Char)
    (h1 : l.head? = some c1) (hw1 : wsPy c1 = false)
    (h2 : l.getLast? = some c2) (hw2 : wsPy c2 = false) : pyStrip l = l := by
  unfold pyStrip stripEnd
  rw [dropWhile_head_not wsPy l c1 h1 hw1,
    dropWhile_head_not wsPy l.reverse c2 (by rw [List.head?_reverse]; exact h2) hw2,
    List.reverse_reverse]

/-- The fence stripper is the identity on brace-headed text. -/
theorem stripFences_brace (x : List Char) : stripFences ('{' :: x) = '{' :: x := by
  unfold stripFences
  rw [if_neg (by simp [chPrefix]), if_neg (by simp [chPrefix])]

/-- Stripping a newline-padded body recovers the body when its endpoints
are the object braces. -/
theorem pyStrip_nl_wrap (body : List Char) (hh : body.head? = some '{')
    (hl : body.getLast? = some '}') :
    pyStrip ('\n' :: (body ++ [ '\n' ])) = body := by
  have hbh : (body ++ [ '\n' ]).head? = some '{' := by
    cases body with
    | nil => simp at hh
    | cons b t =>
      simp only [List.head?_cons, Option.some.injEq] at hh
      subst hh
      rfl
  unfold pyStrip stripEnd
  rw [List.dropWhile_cons]
  rw [if_pos (by rfl), dropWhile_head_not wsPy (body ++ [ '\n' ]) '{' hbh rfl,
    List.reverse_append]
  show ((('\n' :: body.reverse).dropWhile wsPy).reverse) = body
  rw [List.dropWhile_cons, if_pos (by rfl),
    dropWhile_head_not wsPy body.reverse '}' (by rw [List.head?_reverse]; exact hl) rfl,
    List.reverse_reverse]

/-- The cleaned text of an optionally fenced payload is the payload. -/
theorem cleanedText_of_fence (body : List Char) (hh : body.head? = some '{')
    (hl : body.getLast? = some '}') :
    ∀ w : FenceWrap, cleanedText (applyFence w body) = body := by
  have hbrace : ∃ x, body = '{' :: x := by
    cases body with
    | nil => simp at hh
    | cons b t =>
      simp only [List.head?_cons, Option.some.injEq] at hh
      exact ⟨t, by rw [hh]⟩
  obtain ⟨x, hx⟩ := hbrace
  intro w
  cases w with
  | bare =>
    show cleanedText body = body
    unfold cleanedText
    rw [pyStrip_eq_self body '{' '}' hh rfl hl rfl, hx, stripFences_brace, ← hx,
      pyStrip_eq_self body '{' '}' hh rfl hl rfl]
  | tagged =>
    show cleanedText (( "```json\n").data ++ body ++ ( "\n```").data) = body
    have hin : ( "```json\n").data ++ body ++ ( "\n```").data =
        ( "```json").data ++ ('\n' :: (body ++ ('\n' :: ( "```").data))) := by
      rw [show ( "```json\n").data = ( "```json").data ++ [ '\n' ] from rfl,
        show ( "\n```").data = '\n' :: ( "```").data from rfl]
      simp [List.append_assoc]
    have hps1 : pyStrip (( "```json\n").data ++ body ++ ( "\n```").data) =
        ( "```json\n").data ++ body ++ ( "\n```").data := by
      refine pyStrip_eq_self _ '`' '`' ?_ rfl ?_ rfl
      · rw [hin]; rfl
      · rw [show ( "```json\n").data ++ body ++ ( "\n```").data =
            (( "```json\n").data ++ body ++ ( "\n``").data) ++ [ '`' ] by
              rw [show ( "\n```").data = ( "\n``").data ++ [ '`' ] from rfl]
              simp [List.append_assoc]]
        rw [List.getLast?_concat]
    unfold cleanedText
    rw [hps1, hin]
    unfold stripFences
    rw [if_pos (chPrefix_append ( "```json").data _),
      show (7 : Nat) = ( "```json").data.length from rfl, List.drop_left]
    have hsfx : '\n' :: (body ++ ('\n' :: ( "```").data)) =
        ('\n' :: (body ++ [ '\n' ])) ++ ( "```").data := by
      simp [List.append_assoc]
    rw [hsfx, if_pos (chSuffix_append ( "```").data _)]
    have hlen : (('\n' :: (body ++ [ '\n' ])) ++ ( "```").data).length - 3 =
        ('\n' :: (body ++ [ '\n' ])).length := by
      simp [List.length_append]
    rw [hlen, List.take_left]
    exact pyStrip_nl_wrap body hh hl
  | plain =>
    show cleanedText (( "```\n").data ++ body ++ ( "\n```").data) = body
    have hin : ( "```\n").data ++ body ++ ( "\n```").data =
        ( "```").data ++ ('\n' :: (body ++ ('\n' :: ( "```").data))) := by
      rw [show ( "```\n").data = ( "```").data ++ [ '\n' ] from rfl,
        show ( "\n```").data = '\n' :: ( "```").data from rfl]
      simp [List.append_assoc]
    have hps1 : pyStrip (( "```\n").data ++ body ++ ( "\n```").data) =
        ( "```\n").data ++ body ++ ( "\n```").data := by
      refine pyStrip_eq_self _ '`' '`' ?_ rfl ?_ rfl
      · rw [hin]; rfl
      · rw [show ( "```\n").data ++ body ++ ( "\n```").data =
            (( "```\n").data ++ body ++ ( "\n``").data) ++ [ '`' ] by
              rw [show ( "\n```").data = ( "\n``").data ++ [ '`' ] from rfl]
              simp [List.append_assoc]]
        rw [List.getLast?_concat]
    unfold cleanedText
    rw [hps1, hin]
    unfold stripFences
    rw [if_neg ?hjson, if_pos (chPrefix_append ( "```").data _),
      show (3 : Nat) = ( "```").data.length from rfl, List.drop_left]
    case hjson =>
      show ¬ chPrefix ( "```json").data (( "```").data ++ ('\n' :: (body ++ ('\n' :: ( "```").data)))) = true
      show ¬ chPrefix ( "```json").data ('`' :: '`' :: '`' :: '\n' :: (body ++ ('\n' :: ( "```").data))) = true
      simp [chPrefix]
    have hsfx : '\n' :: (body ++ ('\n' :: ( "```").data)) =
        ('\n' :: (body ++ [ '\n' ])) ++ ( "```").data := by
      simp [List.append_assoc]
    rw [hsfx, if_pos (chSuffix_append ( "```").data _)]
    have hlen : (('\n' :: (body ++ [ '\n' ])) ++ ( "```").data).length - ( "```").data.length =
        ('\n' :: (body ++ [ '\n' ])).length := by
      simp [List.length_append]
    rw [hlen, List.take_left]
    exact pyStrip_nl_wrap body hh hl

/-- A digit run before a closing brace is taken whole. -/
theorem takeWhile_digits_brace (ds : List Char) (h : ∀ c ∈ ds, isDigit c = true) :
    (ds ++ [ '}' ]).takeWhile isDigit = ds := by
  induction ds with
  | nil => decide
  | cons c t ih =>
    show ((c :: (t ++ [ '}' ])).takeWhile isDigit) = c :: t
    rw [List.takeWhile_cons, if_pos (h c (List.mem_cons_self c t)),
      ih (fun x hx => h x (List.mem_cons_of_mem c hx))]

/-- The matching dropWhile stops exactly at the brace. -/
theorem dropWhile_digits_brace (ds : List Char) (h : ∀ c ∈ ds, isDigit c = true) :
    (ds ++ [ '}' ]).dropWhile isDigit = [ '}' ] := by
  induction ds with
  | nil => decide
  | cons c t ih =>
    show ((c :: (t ++ [ '}' ])).dropWhile isDigit) = [ '}' ]
    rw [List.dropWhile_cons, if_pos (h c (List.mem_cons_self c t)),
      ih (fun x hx => h x (List.mem_cons_of_mem c hx))]

/-- takeDigits on a digit run before a closing brace. -/
theorem takeDigits_append_brace (ds : List Char) (h : ∀ c ∈ ds, isDigit c = true) :
    takeDigits (ds ++ [ '}' ]) = (ds, [ '}' ]) := by
  unfold takeDigits
  rw [takeWhile_digits_brace ds h, dropWhile_digits_brace ds h]

/-- The fraction-and-exponent finisher on a dotted digit run before the
closing brace. -/
theorem finishNumber_frac (ip : Nat) (fd : Char) (ft : List Char)
    (hfd : isDigit fd = true) (hft : ∀ c ∈ ft, isDigit c = true) :
    finishNumber false ip ('.' :: fd :: (ft ++ [ '}' ])) =
      (mkDecimal false ip (fd :: ft) 0, [ '}' ]) := by
  have hfp : fracPart ('.' :: fd :: (ft ++ [ '}' ])) = (fd :: ft, [ '}' ]) := by
    show (if isDigit fd = true
          then (fd :: (takeDigits (ft ++ [ '}' ])).1, (takeDigits (ft ++ [ '}' ])).2)
          else ([], '.' :: fd :: (ft ++ [ '}' ]))) = (fd :: ft, [ '}' ])
    rw [if_pos hfd, takeDigits_append_brace ft hft]
  unfold finishNumber
  rw [hfp]
  rfl

/-- Entering an object whose first member key follows immediately. -/
theorem parseJ_obj_start (f : Nat) (t : List Char) :
    parseJ (f + 1) .pval ('{' :: '"' :: t) = parseJ f (.pmembers []) ('"' :: t) := rfl

/-- Parsing an escape-free string value. -/
theorem parseJ_val_str (f : Nat) (s r : List Char)
    (hs : ∀ c ∈ s, c ≠ '"' ∧ c ≠ '\\' ∧ 32 ≤ c.toNat) :
    parseJ (f + 1) .pval ('"' :: (s ++ '"' :: r)) = some (.str s, r) := by
  show (parseStringBody (s ++ '"' :: r)).map (fun p => (JsonVal.str p.1, p.2)) =
    some (.str s, r)
  rw [parseStringBody_safe s r hs]
  rfl

/-- Parsing the probability decimal right before the closing brace. -/
theorem parseJ_val_number (f : Nat) (d : Char) (frac : List Char)
    (hd : d = '0' ∨ d = '1') (hf : ∀ c ∈ frac, isDigit c = true) :
    parseJ (f + 1) .pval (pChars d frac ++ [ '}' ]) =
      some (.num (probVal d frac), [ '}' ]) := by
  rcases hd with rfl | rfl
  · cases frac with
    | nil => rfl
    | cons fd ft =>
      show (parseNumber ('0' :: '.' :: fd :: (ft ++ [ '}' ]))).map
          (fun p => (JsonVal.num p.1, p.2)) = some (.num (probVal '0' (fd :: ft)), [ '}' ])
      show (some (finishNumber false 0 ('.' :: fd :: (ft ++ [ '}' ])))).map
          (fun p => (JsonVal.num p.1, p.2)) = some (.num (probVal '0' (fd :: ft)), [ '}' ])
      rw [finishNumber_frac 0 fd ft (hf fd (List.mem_cons_self fd ft))
        (fun x hx => hf x (List.mem_cons_of_mem fd hx))]
      rfl
  · cases frac with
    | nil => rfl
    | cons fd ft =>
      show (parseNumber ('1' :: '.' :: fd :: (ft ++ [ '}' ]))).map
          (fun p => (JsonVal.num p.1, p.2)) = some (.num (probVal '1' (fd :: ft)), [ '}' ])
      show (some (finishNumber false (digitsToNat [ '1' ]) ('.' :: fd :: (ft ++ [ '}' ])))).map
          (fun p => (JsonVal.num p.1, p.2)) = some (.num (probVal '1' (fd :: ft)), [ '}' ])
      rw [finishNumber_frac (digitsToNat [ '1' ]) fd ft (hf fd (List.mem_cons_self fd ft))
        (fun x hx => hf x (List.mem_cons_of_mem fd hx))]
      rfl

/-- Decoding the serialized payload yields the two-member object with the
explanation string and the probability value. -/
theorem jsonParse_probJson (e : List Char) (d : Char) (frac : List Char)
    (he : ∀ c ∈ e, c ≠ '"' ∧ c ≠ '\\' ∧ 32 ≤ c.toNat)
    (hd : d = '0' ∨ d = '1') (hf : ∀ c ∈ frac, isDigit c = true) :
    jsonParse (mkProbJson e (pChars d frac)) =
      some (.obj [(( "explanation").data, .str e),
                  (( "probability").data, .num (probVal d frac))]) := by
  have hws : jsonWs d = false := by rcases hd with rfl | rfl <;> rfl
  have hphead : (pChars d frac ++ [ '}' ]).head? = some d := by
    cases frac <;> rfl
  have hskip : skipWs (' ' :: (pChars d frac ++ [ '}' ])) = pChars d frac ++ [ '}' ] := by
    show skipWs (pChars d frac ++ [ '}' ]) = pChars d frac ++ [ '}' ]
    exact dropWhile_head_not jsonWs _ d hphead hws
  have hrun : parseJ (4 * (mkProbJson e (pChars d frac)).length + 8) .pval
      (mkProbJson e (pChars d frac)) =
      some (.obj [(( "explanation").data, .str e),
                  (( "probability").data, .num (probVal d frac))], []) := by
    obtain ⟨g, hg⟩ : ∃ g, 4 * (mkProbJson e (pChars d frac)).length + 8 = g + 5 :=
      ⟨4 * (mkProbJson e (pChars d frac)).length + 3, by omega⟩
    rw [hg]
    have hstr : parseJ (g + 3) .pval
        ('"' :: (e ++ '"' :: (',' :: ' ' :: '"' ::
          (( "probability").data ++ '"' :: ':' :: ' ' :: (pChars d frac ++ [ '}' ]))))) =
        some (.str e, ',' :: ' ' :: '"' ::
          (( "probability").data ++ '"' :: ':' :: ' ' :: (pChars d frac ++ [ '}' ]))) :=
      parseJ_val_str (g + 2) e _ he
    have hnum : parseJ (g + 2) .pval (pChars d frac ++ [ '}' ]) =
        some (.num (probVal d frac), [ '}' ]) :=
      parseJ_val_number (g + 1) d frac hd hf
    calc parseJ (g + 5) .pval (mkProbJson e (pChars d frac))
        = (match parseJ (g + 3) .pval
              ('"' :: (e ++ '"' :: (',' :: ' ' :: '"' ::
                (( "probability").data ++ '"' :: ':' :: ' ' :: (pChars d frac ++ [ '}' ]))))) with
           | none => none
           | some (v, r3) =>
             match skipWs r3 with
             | ',' :: r4 => parseJ (g + 3) (.pmembers [(( "explanation").data, v)]) (skipWs r4)
             | '}' :: r4 => some (.obj [(( "explanation").data, v)], r4)
             | _ => none) := rfl
      _ = (match parseJ (g + 2) .pval (skipWs (' ' :: (pChars d frac ++ [ '}' ]))) with
           | none => none
           | some (v, r3) =>
             match skipWs r3 with
             | ',' :: r4 => parseJ (g + 2)
                 (.pmembers [(( "explanation").data, .str e), (( "probability").data, v)])
                 (skipWs r4)
             | '}' :: r4 => some (.obj [(( "explanation").data, .str e),
                 (( "probability").data, v)], r4)
             | _ => none) := by rw [hstr]; rfl
      _ = some (.obj [(( "explanation").data, .str e),
                      (( "probability").data, .num (probVal d frac))], []) := by
            rw [hskip, hnum]
            rfl
  unfold jsonParse
  rw [show skipWs (mkProbJson e (pChars d frac)) = mkProbJson e (pChars d frac) from rfl, hrun]
  rfl

/-- The probability-side characters contain no braces. -/
theorem pChars_no_brace (d : Char) (frac : List Char) (hd : d = '0' ∨ d = '1')
    (hf : ∀ c ∈ frac, isDigit c = true) :
    ∀ c ∈ pChars d frac, c ≠ '{' ∧ c ≠ '}' := by
  intro c hc
  unfold pChars at hc
  cases frac with
  | nil =>
    simp only [List.mem_singleton] at hc
    subst hc
    rcases hd with rfl | rfl <;> exact (by decide)
  | cons fd ft =>
    rcases List.mem_cons.mp hc with rfl | hc2
    · rcases hd with rfl | rfl <;> exact (by decide)
    · rcases List.mem_cons.mp hc2 with rfl | hc3
      · exact (by decide)
      · exact ⟨(digit_chars c (hf c hc3)).1, (digit_chars c (hf c hc3)).2.1⟩

/-- The fragment regex locates exactly the whole serialized payload. -/
theorem findFragment_probJson (e : List Char) (d : Char) (frac : List Char)
    (he : ∀ c ∈ e, safeExplChar c) (hd : d = '0' ∨ d = '1')
    (hf : ∀ c ∈ frac, isDigit c = true) :
    findFragment (mkProbJson e (pChars d frac)) = some (mkProbJson e (pChars d frac)) := by
  have hshape : mkProbJson e (pChars d frac) =
      '{' :: (('"' :: (( "explanation").data ++ ('"' :: ':' :: ' ' :: '"' ::
        (e ++ ('"' :: ',' :: ' ' :: '"' :: (( "probability").data ++
          ('"' :: ':' :: ' ' :: pChars d frac))))))) ++ ('}' :: [])) := by
    simp [mkProbJson, List.append_assoc]
  have hsafe : ∀ c ∈ ('"' :: (( "explanation").data ++ ('"' :: ':' :: ' ' :: '"' ::
      (e ++ ('"' :: ',' :: ' ' :: '"' :: (( "probability").data ++
        ('"' :: ':' :: ' ' :: pChars d frac))))))), c ≠ '{' ∧ c ≠ '}' := by
    have hexp : ∀ x ∈ ( "explanation").data, x ≠ '{' ∧ x ≠ '}' := by decide
    have hprob : ∀ x ∈ ( "probability").data, x ≠ '{' ∧ x ≠ '}' := by decide
    intro c hc
    rcases List.mem_cons.mp hc with rfl | hc
    · exact (by decide)
    rcases List.mem_append.mp hc with hc | hc
    · exact hexp c hc
    rcases List.mem_cons.mp hc with rfl | hc
    · exact (by decide)
    rcases List.mem_cons.mp hc with rfl | hc
    · exact (by decide)
    rcases List.mem_cons.mp hc with rfl | hc
    · exact (by decide)
    rcases List.mem_cons.mp hc with rfl | hc
    · exact (by decide)
    rcases List.mem_append.mp hc with hc | hc
    · exact ⟨(he c hc).2.2.1, (he c hc).2.2.2.1⟩
    rcases List.mem_cons.mp hc with rfl | hc
    · exact (by decide)
    rcases List.mem_cons.mp hc with rfl | hc
    · exact (by decide)
    rcases List.mem_cons.mp hc with rfl | hc
    · exact (by decide)
    rcases List.mem_cons.mp hc with rfl | hc
    · exact (by decide)
    rcases List.mem_append.mp hc with hc | hc
    · exact hprob c hc
    rcases List.mem_cons.mp hc with rfl | hc
    · exact (by decide)
    rcases List.mem_cons.mp hc with rfl | hc
    · exact (by decide)
    rcases List.mem_cons.mp hc with rfl | hc
    · exact (by decide)
    exact pChars_no_brace d frac hd hf c hc
  have hrest : containsSub ( "\"probability\"").data
      ('"' :: ',' :: ' ' :: '"' :: (( "probability").data ++
        ('"' :: ':' :: ' ' :: pChars d frac))) = true := rfl
  have hkeys : keysOk ('"' :: (( "explanation").data ++ ('"' :: ':' :: ' ' :: '"' ::
      (e ++ ('"' :: ',' :: ' ' :: '"' :: (( "probability").data ++
        ('"' :: ':' :: ' ' :: pChars d frac))))))) = true := by
    show containsSub ( "\"probability\"").data
      (':' :: ' ' :: '"' :: (e ++ ('"' :: ',' :: ' ' :: '"' :: (( "probability").data ++
        ('"' :: ':' :: ' ' :: pChars d frac))))) = true
    rw [show (':' :: ' ' :: '"' :: (e ++ ('"' :: ',' :: ' ' :: '"' ::
        (( "probability").data ++ ('"' :: ':' :: ' ' :: pChars d frac))))) =
      ((':' :: ' ' :: '"' :: e) ++ ('"' :: ',' :: ' ' :: '"' ::
        (( "probability").data ++ ('"' :: ':' :: ' ' :: pChars d frac)))) from by simp]
    exact containsSub_append_right _ _ _ hrest
  rw [hshape]
  show (match interiorTo (('"' :: (( "explanation").data ++ ('"' :: ':' :: ' ' :: '"' ::
      (e ++ ('"' :: ',' :: ' ' :: '"' :: (( "probability").data ++
        ('"' :: ':' :: ' ' :: pChars d frac))))))) ++ ('}' :: [])) with
      | some (interior, _) =>
        if keysOk interior then some ('{' :: interior ++ [ '}' ])
        else findFragment (('"' :: (( "explanation").data ++ ('"' :: ':' :: ' ' :: '"' ::
          (e ++ ('"' :: ',' :: ' ' :: '"' :: (( "probability").data ++
            ('"' :: ':' :: ' ' :: pChars d frac))))))) ++ ('}' :: []))
      | none => findFragment (('"' :: (( "explanation").data ++ ('"' :: ':' :: ' ' :: '"' ::
          (e ++ ('"' :: ',' :: ' ' :: '"' :: (( "probability").data ++
            ('"' :: ':' :: ' ' :: pChars d frac))))))) ++ ('}' :: []))) = _
  rw [interiorTo_append _ [] hsafe]
  show (if keysOk ('"' :: (( "explanation").data ++ ('"' :: ':' :: ' ' :: '"' ::
      (e ++ ('"' :: ',' :: ' ' :: '"' :: (( "probability").data ++
        ('"' :: ':' :: ' ' :: pChars d frac))))))) = true
    then some ('{' :: ('"' :: (( "explanation").data ++ ('"' :: ':' :: ' ' :: '"' ::
      (e ++ ('"' :: ',' :: ' ' :: '"' :: (( "probability").data ++
        ('"' :: ':' :: ' ' :: pChars d frac))))))) ++ [ '}' ])
    else findFragment (('"' :: (( "explanation").data ++ ('"' :: ':' :: ' ' :: '"' ::
      (e ++ ('"' :: ',' :: ' ' :: '"' :: (( "probability").data ++
        ('"' :: ':' :: ' ' :: pChars d frac))))))) ++ ('}' :: []))) = _
  rw [if_pos hkeys]
  simp

/-- A successful structural decode followed by a successful extraction is
the parser's result. -/
theorem parse_probability_response_of_decode (s : List Char) (v : JsonVal)
    (hdec : structuralDecode (cleanedText s) = some v) (p : ℚ) (e2 : JsonVal)
    (hex : extractProbExpl v = .ok (p, e2)) :
    parse_probability_response s = .ok (p, e2) := by
  unfold parse_probability_response
  simp only [hdec, hex]

/-- Field extraction on the decoded payload object. -/
theorem extractProbExpl_probJson (e : List Char) (q : ℚ) :
    extractProbExpl (.obj [(( "explanation").data, .str e),
      (( "probability").data, .num q)]) = .ok (max 0 (min 1 q), .str e) := rfl

/-- The decimal value of a probability literal is nonnegative. -/
theorem probVal_nonneg (d : Char) (frac : List Char) : 0 ≤ probVal d frac := by
  unfold probVal mkDecimal
  norm_num
  positivity

/-- Claim C5: for every well-formed payload of the form
(braces written as b) b"explanation": e, "probability": pb - with e an
escape-free brace-free explanation string and p a decimal in [0, 1] -
optionally wrapped in a code fence (plain or json-tagged), the parser
returns exactly the pair (p, e). -/
theorem claim_C5_roundtrip :
    ∀ (e : List Char) (d : Char) (frac : List Char) (w : FenceWrap),
      (∀ c ∈ e, safeExplChar c) → (d = '0' ∨ d = '1') →
      (∀ c ∈ frac, isDigit c = true) → probVal d frac ≤ 1 →
      parse_probability_response (applyFence w (mkProbJson e (pChars d frac))) =
        .ok (probVal d frac, .str e) := by
  intro e d frac w he hd hf hval
  have he' : ∀ c ∈ e, c ≠ '"' ∧ c ≠ '\\' ∧ 32 ≤ c.toNat :=
    fun c hc => ⟨(he c hc).1, (he c hc).2.1, (he c hc).2.2.2.2⟩
  have hh : (mkProbJson e (pChars d frac)).head? = some '{' := rfl
  have hl : (mkProbJson e (pChars d frac)).getLast? = some '}' := by
    rw [show mkProbJson e (pChars d frac) =
      ('{' :: '"' :: (( "explanation").data ++ ('"' :: ':' :: ' ' :: '"' ::
        (e ++ ('"' :: ',' :: ' ' :: '"' :: (( "probability").data ++
          ('"' :: ':' :: ' ' :: pChars d frac))))))) ++ [ '}' ] from by
        simp [mkProbJson, List.append_assoc]]
    exact List.getLast?_concat _
  have hclean := cleanedText_of_fence _ hh hl w
  have hfrag := findFragment_probJson e d frac he hd hf
  have hjson := jsonParse_probJson e d frac he' hd hf
  have hdec : structuralDecode
      (cleanedText (applyFence w (mkProbJson e (pChars d frac)))) =
      some (.obj [(( "explanation").data, .str e),
        (( "probability").data, .num (probVal d frac))]) := by
    rw [hclean]
    unfold structuralDecode
    rw [hfrag]
    exact hjson
  have hclamp : max 0 (min 1 (probVal d frac)) = probVal d frac := by
    rw [min_eq_right hval, max_eq_right (probVal_nonneg d frac)]
  rw [← hclamp]
  exact parse_probability_response_of_decode _ _ hdec _ _
    (extractProbExpl_probJson e (probVal d frac))

/-- The round trip instantiated on the fenced payload with explanation
"ok" and probability 0.73. -/
theorem claim_C5_witness :
    parse_probability_response
      (applyFence .tagged (mkProbJson ( "ok").data (pChars '0' ( "73").data))) =
      .ok (probVal '0' ( "73").data, .str ( "ok").data) :=
  claim_C5_roundtrip ( "ok").data '0' ( "73").data .tagged (by decide) (Or.inl rfl)
    (by decide)
    (by
      have h1 : digitsToNat [ '0' ] = 0 := rfl
      have h2 : digitsToNat ( "73").data = 73 := rfl
      have h3 : ( "73").data.length = 2 := rfl
      unfold probVal mkDecimal
      rw [h1, h2, h3]
      norm_num)

end Falseometer














